import Mathlib

/- Shallow embedding of the django-triplets EAV knowledge base
   (src/triplets/ast_untyped.py, ast.py, core.py, models.py).
   Python values of type: str | int | float are modelled by Ordinal below;
   Python ints are arbitrary precision, so Int is exact, and float values
   are modelled by Rat (the claims only use ordering, equality, min and max
   of same-typed values, on which non-NaN floats embed order-faithfully).
   Python dicts are modelled by association lists with unique keys, sets by
   lists with set-level operations. -/

set_option autoImplicit false

namespace Triplets

/- Section 1: ordinals and operators (ast_untyped.py). -/

/-- Value domain, from ast_untyped.py: Ordinal = str | int | float. -/
inductive Ordinal where
  | s (v : String)
  | i (v : Int)
  | f (v : Rat)
deriving DecidableEq

/-- Runtime type tags for Ordinal; models OrdinalType = type[Ordinal]. -/
inductive OrdType where
  | str
  | int
  | float
deriving DecidableEq

/-- Python type(value) for an Ordinal. -/
def Ordinal.typeOf : Ordinal → OrdType
  | .s _ => .str
  | .i _ => .int
  | .f _ => .float

/-- Models ast.type_name: the attribute value-column suffix of a type. -/
def OrdType.typeName : OrdType → String
  | .str => "str"
  | .int => "int"
  | .float => "float"

/-- Comparison operators, from ast_untyped.py ComparisonOperator:
the string literals are lt for the source text less-than, le for
less-or-equal, ge for greater-or-equal, gt for greater-than. -/
inductive CmpOp where
  | lt
  | le
  | ge
  | gt
deriving DecidableEq

/-- Python < on two same-typed ordinals; a cross-typed comparison raises
TypeError in Python and is modelled as false (no claim exercises it). -/
def Ordinal.olt : Ordinal → Ordinal → Bool
  | .s a, .s b => a < b
  | .i a, .i b => a < b
  | .f a, .f b => a < b
  | _, _ => false

/-- Python <= on two same-typed ordinals; cross-typed modelled as false. -/
def Ordinal.ole : Ordinal → Ordinal → Bool
  | .s a, .s b => a ≤ b
  | .i a, .i b => a ≤ b
  | .f a, .f b => a ≤ b
  | _, _ => false

/-- Models ast_untyped.operators: the operator table mapping each
ComparisonOperator to its Python comparison function. -/
def CmpOp.eval : CmpOp → Ordinal → Ordinal → Bool
  | .lt, a, b => a.olt b
  | .le, a, b => a.ole b
  | .ge, a, b => b.ole a
  | .gt, a, b => b.olt a

/-- Models ast_untyped.reverse_operator, copied entry by entry from the
source table: lt maps to ge, le to gt, gt to le, ge to lt. -/
def reverse_operator : CmpOp → CmpOp
  | .lt => .ge
  | .le => .gt
  | .gt => .le
  | .ge => .lt

/-- A ground fact (entity, attr, value), from ast_untyped.Fact. -/
abbrev Fact := String × String × Ordinal

/- Section 2: contexts (Python dict[str, Ordinal]) as association lists. -/

/-- A variable binding context, models ast_untyped.Context = dict. -/
abbrev Ctx := List (String × Ordinal)

/-- Python ctx.get(name): first binding of a key, none when absent. -/
def ctxGet : Ctx → String → Option Ordinal
  | [], _ => none
  | (k, v) :: rest, n => if k = n then some v else ctxGet rest n

/-- Python dict item assignment: replace the binding in place or append. -/
def ctxUpsert : Ctx → String → Ordinal → Ctx
  | [], n, v => [(n, v)]
  | (k, w) :: rest, n, v =>
      if k = n then (k, v) :: rest else (k, w) :: ctxUpsert rest n v

/-- Python dict union a | b (entries of b override those of a). -/
def ctxUnion (a b : Ctx) : Ctx :=
  b.foldl (fun acc p => ctxUpsert acc p.1 p.2) a

/-- Keys of a context. -/
def ctxKeys (c : Ctx) : List String := c.map Prod.fst

/-- Python dict equality (same key set, same values), decided over the
keys occurring in either context. -/
def ctxEqB (a b : Ctx) : Bool :=
  (ctxKeys a ++ ctxKeys b).all (fun k => ctxGet a k == ctxGet b k)

/-- A well-formed context has no duplicate keys, as every Python dict. -/
abbrev ctxWF (c : Ctx) : Prop := (ctxKeys c).Nodup

/-- Models ast.pluck_values: reading a name from a batch of contexts gives
none when any context lacks the name, else the set of bound values
(modelled as a duplicate-free list). -/
def pluck_values : List Ctx → String → Option (List Ordinal)
  | [], _ => some []
  | c :: rest, n =>
      match ctxGet c n with
      | none => none
      | some v =>
          match pluck_values rest n with
          | none => none
          | some vs => some (if v ∈ vs then vs else v :: vs)

/- Section 3: the typed expression algebra (ast.py). -/

/-- Operand of a comparison, models ast.ComparisionOperand.T = Var | Ordinal. -/
inductive CmpArg where
  | constArg (v : Ordinal)
  | varArg (name : String) (dataType : OrdType)
deriving DecidableEq

/-- Lookup expressions, models ast.LookUpExpression.T: an Ordinal constant,
a Var, an In set, an Any wildcard (carrying its internal name, which the
source initializes to the character star followed by a uuid4), a
Comparison whose operands are Var or Ordinal, or an And of two
boolean expressions. -/
inductive LExp where
  | const (v : Ordinal)
  | var (name : String) (dataType : OrdType)
  | inSet (name : String) (values : List Ordinal) (dataType : OrdType)
  | anyVar (dataType : OrdType) (internalName : String)
  | comparison (op : CmpOp) (left right : CmpArg)
  | andE (left right : LExp)
deriving DecidableEq

/-- Models str(uuid4()) draws, indexed by a draw counter. A real uuid4
string is 36 characters of lowercase hex digits and dashes; the only
facts the development uses are that distinct draws are distinct strings
and that the first character is a hex digit, never the star sentinel.
We render draw n as n plus one repetitions of a hex digit, which has
both properties. -/
def uuidStr (n : Nat) : String := String.mk (List.replicate (n + 1) 'f')

/-- Models ast.Var.new_hidden: a fresh variable named str(uuid4()). -/
def Var.new_hidden (dataType : OrdType) (seed : Nat) : LExp :=
  .var (uuidStr seed) dataType

/-- Models ast.In.new_null with name=None: an empty In named str(uuid4()). -/
def In.new_null (dataType : OrdType) (seed : Nat) : LExp :=
  .inSet (uuidStr seed) [] dataType

/-- Models ast.Var.substitute given the batch of candidate contexts. -/
def varSubstitute (name : String) (dataType : OrdType) (ctxs : List Ctx) :
    LExp :=
  match pluck_values ctxs name with
  | none => .var name dataType
  | some [v] => .const v
  | some vs => .inSet name vs dataType

/-- Models ast.In.substitute: intersect the plucked values with the
carried set; a singleton becomes a constant. -/
def inSubstitute (name : String) (values : List Ordinal) (dataType : OrdType)
    (ctxs : List Ctx) : LExp :=
  match pluck_values ctxs name with
  | none => .inSet name values dataType
  | some vs =>
      match vs.filter (· ∈ values) with
      | [v] => .const v
      | l => .inSet name l dataType

/-- Models ast.ComparisionOperand.substitute: constants are fixpoints and
variables substitute (possibly to a constant or an In). -/
def substArg (a : CmpArg) (ctxs : List Ctx) : LExp :=
  match a with
  | .constArg v => .const v
  | .varArg n ty => varSubstitute n ty ctxs

/-- Models ast.Comparison._extreme: max or min of a nonempty value set
depending on the operator and on which side of the rewritten bound the
value goes. -/
def extremeOf (op : CmpOp) (goesRight : Bool) (values : List Ordinal) :
    Ordinal :=
  let maxV := values.foldl (fun a b => if a.ole b then b else a)
    (values.headD (.i 0))
  let minV := values.foldl (fun a b => if b.ole a then b else a)
    (values.headD (.i 0))
  match op with
  | .lt | .le => if goesRight then maxV else minV
  | .gt | .ge => if goesRight then minV else maxV

/-- Models ast.Comparison.substitute. The nine cases follow the source
match on the substituted operands; hidden variables and null In names
consume one draw from the uuid counter, which is threaded explicitly. -/
def compSubstitute (op : CmpOp) (l r : CmpArg) (ctxs : List Ctx)
    (seed : Nat) : LExp × Nat :=
  match substArg l ctxs, substArg r ctxs with
  | .const a, .const b =>
      (.andE (.comparison op (.constArg a) (.varArg (uuidStr seed) a.typeOf))
             (.comparison op (.varArg (uuidStr seed) a.typeOf) (.constArg b)),
       seed + 1)
  | .const a, .var m ty =>
      (.comparison op (.constArg a) (.varArg m ty), seed)
  | .const a, .inSet _ vals ty =>
      if vals.isEmpty then (In.new_null ty seed, seed + 1)
      else
        (.andE (.comparison op (.constArg a) (.varArg (uuidStr seed) ty))
               (.comparison op (.varArg (uuidStr seed) ty)
                  (.constArg (extremeOf op true vals))),
         seed + 1)
  | .var n ty, .const b =>
      (.comparison op (.varArg n ty) (.constArg b), seed)
  | .var n ty, .var m ty2 =>
      (.comparison op (.varArg n ty) (.varArg m ty2), seed)
  | .var n ty, .inSet _ vals ty2 =>
      if vals.isEmpty then (.inSet n [] ty2, seed)
      else (.comparison op (.varArg n ty) (.constArg (extremeOf op true vals)),
            seed)
  | .inSet _ vals ty, .const b =>
      if vals.isEmpty then (In.new_null ty seed, seed + 1)
      else
        (.andE (.comparison op (.constArg (extremeOf op false vals))
                  (.varArg (uuidStr seed) ty))
               (.comparison op (.varArg (uuidStr seed) ty) (.constArg b)),
         seed + 1)
  | .inSet _ vals ty, .var m mty =>
      if vals.isEmpty then (.inSet m [] ty, seed)
      else (.comparison op (.constArg (extremeOf op false vals))
              (.varArg m mty),
            seed)
  | .inSet _ vals ty, .inSet _ vals2 _ =>
      if vals.isEmpty || vals2.isEmpty then (In.new_null ty seed, seed + 1)
      else
        (.andE (.comparison op (.constArg (extremeOf op false vals))
                  (.varArg (uuidStr seed) ty))
               (.comparison op (.varArg (uuidStr seed) ty)
                  (.constArg (extremeOf op true vals2))),
         seed + 1)
  | _, _ => (.comparison op l r, seed)

/-- Models ast.LookUpExpression.substitute: constants and wildcards are
fixpoints, the rest dispatch to their substitute; the uuid draw counter
is threaded through. -/
def substLExp : LExp → List Ctx → Nat → LExp × Nat
  | .const v, _, seed => (.const v, seed)
  | .anyVar ty n, _, seed => (.anyVar ty n, seed)
  | .var n ty, ctxs, seed => (varSubstitute n ty ctxs, seed)
  | .inSet n vals ty, ctxs, seed => (inSubstitute n vals ty ctxs, seed)
  | .comparison op l r, ctxs, seed => compSubstitute op l r ctxs seed
  | .andE l r, ctxs, seed =>
      let p := substLExp l ctxs seed
      let q := substLExp r ctxs p.2
      (.andE p.1 q.1, q.2)

/-- Models ast.LookUpExpression.matches: the micro bindings that make a
stored value satisfy the expression. -/
def mExp : LExp → Ordinal → List Ctx
  | .const w, v => if w == v then [[]] else []
  | .inSet n vals _, v => if v ∈ vals then [[(n, v)]] else []
  | .var n _, v => [[(n, v)]]
  | .anyVar _ _, _ => [[]]
  | .comparison op l r, v =>
      match l, r with
      | .varArg ln _, .constArg c => if op.eval v c then [[(ln, v)]] else []
      | .varArg ln _, .varArg rn _ => [[(ln, v)], [(rn, v)]]
      | .constArg c, .varArg rn _ => if op.eval c v then [[(rn, v)]] else []
      | .constArg a, .constArg b => if op.eval a b then [[]] else []
  | .andE l r, v =>
      ((mExp l v).map (fun lm => (mExp r v).map (fun rm => ctxUnion lm rm))).flatten

/-- Python name.startswith on the one-character star sentinel: the first
character of the name is a star. -/
def startsWithStar (s : String) : Bool := s.data.head? == some '*'

/-- Planner clause weight per variable name, from core.Predicate.planned:
ten when the name starts with the star sentinel (an Any wildcard), else one. -/
def plannerWeight (varName : String) : Nat :=
  if startsWithStar varName then 10 else 1

/- Section 4: variable typing (ast.VarTypes) and rule validation. -/

/-- Variable-type environment, models ast.VarTypes.T = dict[str, OrdinalType]. -/
abbrev VT := List (String × OrdType)

/-- Mismatch report, models ast.VarTypes.Mismatches = dict[str, set[type]]. -/
abbrev MM := List (String × List OrdType)

/-- First type bound to a name in an environment. -/
def vtGet : VT → String → Option OrdType
  | [], _ => none
  | (k, t) :: rest, n => if k = n then some t else vtGet rest n

/-- Record the listed types under a name in a mismatch report
(Python defaultdict(set) update). -/
def mmAdd (mm : MM) (n : String) (ts : List OrdType) : MM :=
  match mm with
  | [] => [(n, ts.foldl (fun acc t => if t ∈ acc then acc else acc ++ [t]) [])]
  | (k, old) :: rest =>
      if k = n then
        (k, ts.foldl (fun acc t => if t ∈ acc then acc else acc ++ [t]) old)
          :: rest
      else (k, old) :: mmAdd rest n ts

/-- One name-to-type obligation folded into (final_result, final_mismatches),
from the loop body of ast.VarTypes.merge on an Ok entry. -/
def addVar (st : VT × MM) (p : String × OrdType) : VT × MM :=
  match vtGet st.1 p.1 with
  | none => (st.1 ++ [p], st.2)
  | some t => if t = p.2 then st else (st.1, mmAdd st.2 p.1 [t, p.2])

/-- One merge result folded into the accumulator, from ast.VarTypes.merge. -/
def mergeStep (st : VT × MM) (r : Except MM VT) : VT × MM :=
  match r with
  | .ok vt => vt.foldl addVar st
  | .error mm => (st.1, mm.foldl (fun acc p => mmAdd acc p.1 p.2) st.2)

/-- Models ast.VarTypes.merge: combine the obligations, reporting every
conflict together; any recorded mismatch makes the result an error. -/
def VarTypes.merge (rs : List (Except MM VT)) : Except MM VT :=
  let st := rs.foldl mergeStep ([], [])
  if st.2.isEmpty then .ok st.1 else .error st.2

/-- Variable obligations of a comparison operand. -/
def argVariableTypes : CmpArg → Except MM VT
  | .constArg _ => .ok []
  | .varArg n ty => .ok [(n, ty)]

/-- Models ast.LookUpExpression.variable_types. Note that a wildcard
contributes its internal (star-prefixed) name. -/
def variable_types : LExp → Except MM VT
  | .const _ => .ok []
  | .var n ty => .ok [(n, ty)]
  | .inSet n _ ty => .ok [(n, ty)]
  | .anyVar ty n => .ok [(n, ty)]
  | .comparison _ l r => VarTypes.merge [argVariableTypes l, argVariableTypes r]
  | .andE l r => VarTypes.merge [variable_types l, variable_types r]

/- Section 5: clauses and solutions (core.py). -/

/-- A triple pattern, models core.Clause. -/
structure Clause where
  entity : LExp
  attr : String
  value : LExp
deriving DecidableEq

/-- Models core.Clause.variable_types. -/
def Clause.variableTypes (c : Clause) : Except MM VT :=
  VarTypes.merge [variable_types c.entity, variable_types c.value]

/-- Models core.Clause.substitute, including the source shortcut that an
empty context batch returns the clause unchanged. -/
def Clause.substitute (c : Clause) (ctxs : List Ctx) (seed : Nat) :
    Clause × Nat :=
  if ctxs.isEmpty then (c, seed)
  else
    let p := substLExp c.entity ctxs seed
    let q := substLExp c.value ctxs p.2
    (⟨p.1, c.attr, q.1⟩, q.2)

/-- A solution, models core.Solution: a binding context together with the
set of facts it derives from (a duplicate-free list read as a set). -/
structure Solution where
  context : Ctx
  derived_from : List Fact
deriving DecidableEq

/-- Python set.issubset on list-encoded sets. -/
def subsetB (a b : List Fact) : Bool := a.all (· ∈ b)

/-- Python set union on list-encoded sets. -/
def factUnion (a b : List Fact) : List Fact :=
  a ++ b.filter (· ∉ a)

/-- Models core.Clause.matches: the solutions binding a fact against the
clause, each justified by the singleton set holding that fact. -/
def Clause.matches (c : Clause) (fact : Fact) : List Solution :=
  if c.attr == fact.2.1 then
    let entityMatches := mExp c.entity (.s fact.1)
    ((mExp c.value fact.2.2).map (fun vm =>
      entityMatches.map (fun em => Solution.mk (ctxUnion em vm) [fact]))).flatten
  else []

/-- Models core.Solution.satisfies_constrain: substitute the own context
into the clause as it was before substitution and check that the fact
backing the other solution still matches it. In the source the backing
fact is next(iter(solution.derived_from)), which raises on an empty set;
the evaluator only builds singleton-backed local solutions, and the
theorems below carry that hypothesis, so the empty case is modelled as
false. -/
def Solution.satisfies_constrain (s : Solution)
    (clauseBeforeSubstitution : Clause) (o : Solution) : Bool :=
  match o.derived_from.head? with
  | none => false
  | some fact =>
      !((clauseBeforeSubstitution.substitute [s.context] 0).1.matches fact).isEmpty

/-- The per-candidate body of core.Solution.merge: the guard and the merged
solution for one other solution. -/
def Solution.mergeOne (s : Solution) (o : Solution)
    (clauseBeforeSubstitution : Clause) : Option Solution :=
  if (s.derived_from.isEmpty || !subsetB s.derived_from o.derived_from)
      && ctxEqB (ctxUnion s.context o.context) (ctxUnion o.context s.context)
      && s.satisfies_constrain clauseBeforeSubstitution o then
    some ⟨ctxUnion s.context o.context, factUnion s.derived_from o.derived_from⟩
  else none

/- Section 6: rule validation (core.Rule and compile_rules). -/

/-- Variable types of a predicate given as its clause list, from the
core.Predicate constructor (which raises on a mismatch). -/
def predicateVT (clauses : List Clause) : Except MM VT :=
  VarTypes.merge (clauses.map Clause.variableTypes)

/-- Models the validation performed by Predicate construction followed by
core.Rule.__init__: build both variable-type environments, reject a star
marked (wildcard) name in the implications, reject implication variables
missing from the predicate, and finally merge the two environments,
rejecting type mismatches between them. Planning reorders clauses only
and is not modelled. -/
def ruleInit (predicate implies : List Clause) : Except String VT :=
  match predicateVT predicate with
  | .error _ => .error "Type mismatch in Predicate"
  | .ok bodyVT =>
      match predicateVT implies with
      | .error _ => .error "Type mismatch in Predicate"
      | .ok impliesVT =>
          if (impliesVT.map Prod.fst).any (fun n => startsWithStar n) then
            .error "implications cannot have Any on them"
          else if (impliesVT.map Prod.fst).any
              (fun n => (vtGet bodyVT n).isNone) then
            .error "is missing these variables in the predicate"
          else
            match VarTypes.merge [.ok bodyVT, .ok impliesVT] with
            | .ok vt => .ok vt
            | .error _ => .error "Type mismatch in Rule"

/- Section 7: lookup filters (models.StoredFactQS._lookup_exp_to_query). -/

/-- Models ast.Comparison.for_lookup: when exactly one operand is an
ordinal, the variable side, the operator (reversed through
reverse_operator when the constant stands on the left) and the constant;
otherwise the source raises. -/
def for_lookup (op : CmpOp) (l r : CmpArg) :
    Except String (String × CmpOp × Ordinal) :=
  match l, r with
  | .constArg v, .varArg n _ => .ok (n, reverse_operator op, v)
  | .varArg n _, .constArg v => .ok (n, op, v)
  | _, _ => .error "cannot be looked up"

/-- Models models.StoredFactQS._lookup_exp_to_query as the predicate the
produced Django Q object imposes on the stored column value: equality for
a constant, no constraint for Var and Any, membership for In, the
for_lookup comparison for a comparison, and conjunction for And. -/
def lookupQ : LExp → Except String (Ordinal → Bool)
  | .const v => .ok (fun x => x == v)
  | .var _ _ => .ok (fun _ => true)
  | .anyVar _ _ => .ok (fun _ => true)
  | .inSet _ vals _ => .ok (fun x => x ∈ vals)
  | .comparison op l r =>
      match for_lookup op l r with
      | .error e => .error e
      | .ok (_, op2, v) => .ok (fun x => op2.eval x v)
  | .andE l r =>
      match lookupQ l, lookupQ r with
      | .ok p, .ok q => .ok (fun x => p x && q x)
      | .error e, _ => .error e
      | _, .error e => .error e

/-- Whether the derived lookup filter of an expression accepts a stored
value (none when the filter construction raises). -/
def lookupQTest (e : LExp) (v : Ordinal) : Option Bool :=
  (lookupQ e).toOption.map (fun p => p v)

/- Section 8: the fact store (models.py). Rows carry the three nullable
value columns of the StoredFact table. Transactions are sequential
natural numbers. Hashing (core.storage_hash, a SHAKE128 digest of the
canonical encoding) is modelled as the canonical encoding itself: the
development only relies on the digest being a stable function of the
encoding. Inserted rows always carry a NULL removed column, and SQL
unique constraints never fire on rows holding a NULL member, so
bulk_create with ignore_conflicts inserts every row; it is modelled as a
plain append. -/

/-- Attribute cardinality, from ast.Attr. -/
inductive Card where
  | one
  | many
deriving DecidableEq

/-- An attribute declaration, models ast.Attr without its name. -/
structure Attr where
  dataType : OrdType
  cardinality : Card
deriving DecidableEq

/-- The settings.TRIPLETS_ATTRIBUTES mapping of models.ATTRIBUTES. -/
abbrev AttrMap := String → Option Attr

/-- Insertion sort step for canonical encodings. -/
def insertSorted (x : String) : List String → List String
  | [] => [x]
  | y :: rest => if x ≤ y then x :: y :: rest else y :: insertSorted x rest

/-- Python sorted on a list of strings. -/
def sortStrings (l : List String) : List String :=
  l.foldr insertSorted []

/-- Models models.Fact.to_str, the canonical encoding of a fact. -/
def Fact.to_str (f : Fact) : String :=
  let valueText := match f.2.2 with
    | .s v => v
    | .i v => toString v
    | .f v => toString v
  "fact:(" ++ f.1 ++ "," ++ f.2.1 ++ "," ++ f.2.2.typeOf.typeName ++ ":"
    ++ valueText ++ ")"

/-- Models models.Fact.storage_key (hash modelled as the encoding). -/
def storage_key (f : Fact) : String := Fact.to_str f

/-- Models models.Fact.storage_key_for_many: encode, sort, list. -/
def storage_key_for_many (facts : List Fact) : String :=
  "[" ++ String.intercalate ", " (sortStrings (facts.map Fact.to_str)) ++ "]"

/-- The three value columns holding an ordinal, models models.Fact.as_dict. -/
def mkColumns : Ordinal → Option String × Option Int × Option Rat
  | .s v => (some v, none, none)
  | .i v => (none, some v, none)
  | .f v => (none, none, some v)

/-- A StoredFact row. -/
structure FactRow where
  id : Nat
  entity : String
  attr : String
  value_str : Option String
  value_int : Option Int
  value_float : Option Rat
  is_inferred : Bool
  added : Nat
  removed : Option Nat
deriving DecidableEq

/-- Models the StoredFact.value property: the string column if set, else
the integer column, else an error; the float column is never consulted
(the source raises ValueError saying the fact has no value at all). -/
def FactRow.value (r : FactRow) : Except String Ordinal :=
  match r.value_str with
  | some s => .ok (.s s)
  | none =>
      match r.value_int with
      | some n => .ok (.i n)
      | none => .error "This fact has no value at all"

/-- Models the StoredFact.as_fact property. -/
def FactRow.asFact (r : FactRow) : Except String Fact :=
  match r.value with
  | .ok v => .ok (r.entity, r.attr, v)
  | .error e => .error e

/-- An InferredSolution row (its uuid primary key is not modelled; the
table has no unique constraint, so duplicates may accumulate). -/
structure SolutionRow where
  inferred_fact_id : Nat
  inferred_fact_hash : String
  rule_id : String
  solution_hash : String
deriving DecidableEq

/-- The database state: stored facts, justification rows, the transaction
log, and the id counters. -/
structure DB where
  facts : List FactRow
  sols : List SolutionRow
  txs : List Nat
  nextFactId : Nat
  nextTx : Nat
deriving DecidableEq

/-- Models Transaction.new: append a fresh transaction to the log. -/
def DB.newTx (db : DB) : Nat × DB :=
  (db.nextTx,
   { db with txs := db.txs ++ [db.nextTx], nextTx := db.nextTx + 1 })

/-- Models StoredFactQS._as_of_now on a row list. -/
def asOfNow (rows : List FactRow) : List FactRow :=
  rows.filter (fun r => r.removed.isNone)

/-- A Django Q object as an optional predicate: none is the empty Q(),
which constrains nothing and therefore matches every row. -/
def qHolds {α : Type} (q : Option (α → Bool)) (x : α) : Bool :=
  match q with
  | none => true
  | some p => p x

/-- queryset.filter with a possibly-empty Q. -/
def qFilter {α : Type} (q : Option (α → Bool)) (l : List α) : List α :=
  l.filter (qHolds q)

/-- Django Q.\_\_or\_\_: an empty accumulator is replaced by the operand. -/
def qOr {α : Type} (acc : Option (α → Bool)) (p : α → Bool) :
    Option (α → Bool) :=
  match acc with
  | none => some p
  | some p0 => some (fun x => p0 x || p x)

/-- Models StoredFactQS._garbage_collect: mark removed every valid
inferred row with no justification row pointing at it. -/
def garbageCollect (db : DB) (tx : Nat) : DB :=
  { db with facts := db.facts.map (fun r =>
      if r.removed.isNone && r.is_inferred
          && (db.sols.countP (fun srow => srow.inferred_fact_id == r.id)) == 0
      then { r with removed := some tx } else r) }

/-- The checking loop at the top of StoredFactQS._bulk_remove: walk the
matched valid rows in order, raising on the first inferred row (the
retraction guard) or on the first row whose value is unreadable, and
otherwise collect the set of base facts. -/
def collectBaseFacts : List FactRow → Except String (List Fact)
  | [] => .ok []
  | r :: rest =>
      if r.is_inferred then .error "You cannot delete inferred facts"
      else
        match r.asFact with
        | .error e => .error e
        | .ok f =>
            match collectBaseFacts rest with
            | .error e => .error e
            | .ok fs => .ok (if f ∈ fs then fs else f :: fs)

/-- The abstract rule engine hook: core.run_rules_matching applied to the
configured settings.TRIPLETS_INFERENCE_RULES and the _lookup of the
current database state, returning (fact, rule_id, bases) triples. The
theorems below mostly instantiate the configured rule list as empty, for
which the comprehension in run_rules_matching is empty. -/
abbrev RRM := DB → List Fact → List (Fact × String × List Fact)

/-- The Q predicate of one justification row to delete, from the loop in
StoredFactQS._bulk_remove. -/
def solRowPred (f : Fact) (rid : String) (bases : List Fact) :
    SolutionRow → Bool :=
  fun srow => srow.rule_id == rid
    && srow.solution_hash == storage_key_for_many bases
    && srow.inferred_fact_hash == storage_key f

/-- The cascade loop of StoredFactQS._bulk_remove: repeatedly run the
rules on the current frontier, OR-ing one deletion clause per derived
justification into the accumulated Q, until the frontier is empty. The
source loop may diverge on cyclically derivable facts, hence the fuel. -/
def buildSolQ (step : List Fact → List (Fact × String × List Fact)) :
    Nat → List Fact → Option (SolutionRow → Bool) →
    Except String (Option (SolutionRow → Bool))
  | _, [], q => .ok q
  | 0, _ :: _, _ => .error "model fuel exhausted"
  | fuel + 1, f0 :: frest, q =>
      let trips := step (f0 :: frest)
      let q2 := trips.foldl (fun acc t => qOr acc (solRowPred t.1 t.2.1 t.2.2)) q
      let next := trips.foldl
        (fun acc t => if t.1 ∈ acc then acc else acc ++ [t.1]) []
      buildSolQ step fuel next q2

/-- Models StoredFactQS._bulk_remove: check and collect the matched valid
rows, build the justification-deletion query by cascading the rules,
delete the matched justification rows (all of them when the accumulated
Q is still empty, since filtering by an empty Q matches every row), mark
the matched facts removed, and garbage collect. Any raise happens before
the first write, and the error carries the unchanged state. -/
def bulkRemoveAux (rrm : RRM) (db : DB) (txId : Nat)
    (q : Option (FactRow → Bool)) (fuel : Nat) : Except (String × DB) DB :=
  let stored := qFilter q (asOfNow db.facts)
  match collectBaseFacts stored with
  | .error e => .error (e, db)
  | .ok facts =>
      match buildSolQ (rrm db) fuel facts none with
      | .error e => .error (e, db)
      | .ok sq =>
          let db1 := { db with sols :=
            match sq with
            | none => []
            | some p => db.sols.filter (fun srow => !(p srow)) }
          let db2 := { db1 with facts := db1.facts.map (fun r =>
            if r.removed.isNone && qHolds q r
            then { r with removed := some txId } else r) }
          .ok (garbageCollect db2 txId)

/-- The cardinality-one subset of a batch, from the comprehension in
StoredFactQS._remove_previous_values; an attribute missing from the
schema raises KeyError there. -/
def filterCardOne (attrs : AttrMap) : List Fact → Except String (List Fact)
  | [] => .ok []
  | ff :: rest =>
      match attrs ff.2.1 with
      | none => .error "KeyError"
      | some a =>
          match filterCardOne attrs rest with
          | .error e => .error e
          | .ok fs =>
              .ok (if a.cardinality = .one then
                     (if ff ∈ fs then fs else ff :: fs)
                   else fs)

/-- Models StoredFactQS._remove_previous_values: cascade-remove every
currently valid fact sharing an entity and attribute with a
cardinality-one fact of the batch. -/
def removePreviousValues (attrs : AttrMap) (rrm : RRM) (db : DB) (tx : Nat)
    (facts : List Fact) (fuel : Nat) : Except (String × DB) DB :=
  match filterCardOne attrs facts with
  | .error e => .error (e, db)
  | .ok co =>
      if co.isEmpty then .ok db
      else
        bulkRemoveAux rrm db tx
          (some (fun r => co.any (fun ff => r.entity == ff.1 && r.attr == ff.2.1)))
          fuel

/-- Pending (fact, rule_id, bases) work items of _bulk_add. -/
abbrev Pending := List (Fact × Option String × Option (List Fact))

/-- A freshly inserted StoredFact row. -/
def mkRow (tx : Nat) (isInf : Bool) (id : Nat) (f : Fact) : FactRow :=
  let cols := mkColumns f.2.2
  ⟨id, f.1, f.2.1, cols.1, cols.2.1, cols.2.2, isInf, tx, none⟩

/-- The rows created for a fact batch, with sequential ids. -/
def mkRows (tx : Nat) (isInf : Bool) : Nat → List Fact → List FactRow
  | _, [] => []
  | id, f :: fs => mkRow tx isInf id f :: mkRows tx isInf (id + 1) fs

/-- bulk_create of the deduplicated batch facts, returning the created
rows (ids are drawn from the id counter). -/
def insertRows (db : DB) (tx : Nat) (isInf : Bool) (fs : List Fact) :
    DB × List FactRow :=
  let rows := mkRows tx isInf db.nextFactId fs
  ({ db with facts := db.facts ++ rows,
             nextFactId := db.nextFactId + rows.length }, rows)

/-- Python set(...) of a fact list, keeping first occurrences. -/
def dedupFacts (l : List Fact) : List Fact :=
  l.foldl (fun acc f => if f ∈ acc then acc else acc ++ [f]) []

/-- The saturation loop of StoredFactQS._bulk_add: insert the pending
facts (the whole batch shares one is_inferred flag, true when any item
carries a rule id), read the created rows back as facts (this raises on
a float-valued fact, after the insert), create the justification rows
for items with a truthy rule id and truthy base set, then run the rules
on the batch facts and loop on the derivations until none remain. The
source loop may diverge on non-terminating rule sets, hence the fuel. -/
def bulkAddLoop (rrm : RRM) (tx : Nat) :
    Nat → DB → Pending → Except (String × DB) DB
  | _, db, [] => .ok db
  | 0, db, _ :: _ => .error ("model fuel exhausted", db)
  | fuel + 1, db, p0 :: prest =>
      let pending := p0 :: prest
      let facts := dedupFacts (pending.map (fun t => t.1))
      let isInf := pending.any (fun t => t.2.1.isSome)
      let created := insertRows db tx isInf facts
      match created.2.mapM (fun r => r.asFact) with
      | .error e => .error (e, created.1)
      | .ok _ =>
          let rowIdOf : Fact → Option Nat := fun f =>
            (created.2.find? (fun r =>
              match r.asFact with
              | .ok g => g == f
              | .error _ => false)).map (fun r => r.id)
          let newSols := pending.filterMap (fun t =>
            match t.2.1, t.2.2 with
            | some rid, some bases =>
                if rid != "" && !bases.isEmpty then
                  (rowIdOf t.1).map (fun fidv =>
                    SolutionRow.mk fidv (storage_key t.1) rid
                      (storage_key_for_many bases))
                else none
            | _, _ => none)
          let db2 := { created.1 with sols := created.1.sols ++ newSols }
          bulkAddLoop rrm tx fuel db2
            ((rrm db2 (pending.map (fun t => t.1))).map
              (fun t => (t.1, some t.2.1, some t.2.2)))

/-- Models StoredFactQS._bulk_add: the saturation loop followed by the
unconditional garbage collection. -/
def bulkAddAux (rrm : RRM) (db : DB) (tx : Nat) (pending : Pending)
    (fuel : Nat) : Except (String × DB) DB :=
  match bulkAddLoop rrm tx fuel db pending with
  | .error e => .error e
  | .ok db2 => .ok (garbageCollect db2 tx)

/-- Models StoredFactQS.bulk_add: open a transaction unless one is given,
supersede previous cardinality-one values, and run the add loop. -/
def bulk_add (attrs : AttrMap) (rrm : RRM) (db : DB) (facts : List Fact)
    (txId : Option Nat) (fuel : Nat) : Except (String × DB) (Nat × DB) :=
  let opened := match txId with
    | some t => (t, db)
    | none => db.newTx
  match removePreviousValues attrs rrm opened.2 opened.1 (dedupFacts facts)
      fuel with
  | .error e => .error e
  | .ok db1 =>
      match bulkAddAux rrm db1 opened.1
          (facts.map (fun f => (f, none, none))) fuel with
      | .error e => .error e
      | .ok db2 => .ok (opened.1, db2)

/-- The row filter of one fact in bulk_remove, from Fact.as_dict: equality
on entity, attribute and the value column of the value type. -/
def factRowMatches (r : FactRow) (f : Fact) : Bool :=
  r.entity == f.1 && r.attr == f.2.1 &&
  (match f.2.2 with
   | .s v => r.value_str == some v
   | .i v => r.value_int == some v
   | .f v => r.value_float == some v)

/-- Models StoredFactQS.bulk_remove: nothing happens on an empty set,
otherwise open a transaction and cascade-remove the matching facts. -/
def bulk_remove (rrm : RRM) (db : DB) (facts : List Fact) (fuel : Nat) :
    Except (String × DB) (Option Nat × DB) :=
  if facts.isEmpty then .ok (none, db)
  else
    let opened := db.newTx
    let q := some (fun r => facts.any (fun f => factRowMatches r f))
    match bulkRemoveAux rrm opened.2 opened.1 q fuel with
    | .error e => .error e
    | .ok db1 => .ok (some opened.1, db1)

/-- A fact is valid-now when some valid row carries its columns. -/
def memVN (db : DB) (f : Fact) : Bool :=
  (asOfNow db.facts).any (fun r => factRowMatches r f)

/-- The rule engine hook for an empty configured rule list:
core.run_rules_matching iterates over the rules, so it returns nothing. -/
def rrmEmpty : RRM := fun _ _ => []

/-- The cardinality-one store invariant (claim C3): any two valid rows
sharing entity and attribute of a cardinality-one attribute carry the
same value columns. -/
def cardOneOK (attrs : AttrMap) (db : DB) : Prop :=
  ∀ r1 ∈ asOfNow db.facts, ∀ r2 ∈ asOfNow db.facts,
    (attrs r1.attr).any (fun a => a.cardinality == Card.one) = true →
    r1.entity = r2.entity → r1.attr = r2.attr →
    (r1.value_str, r1.value_int, r1.value_float)
      = (r2.value_str, r2.value_int, r2.value_float)

/- Section 9: claim-side definitions and concrete instances. -/

/-- Whether the StoredFact.value property of a row can be read: a string
or integer value column is set (C10: a float-only row is unreadable). -/
def rowReadable (r : FactRow) : Bool :=
  r.value_str.isSome || r.value_int.isSome

/-- No valid row is inferred: the consistency of a store kept under an
empty rule set (every valid-now derived fact needs a justification whose
rule is configured, and none is). -/
def noValidInferred (db : DB) : Prop :=
  ∀ r ∈ db.facts, r.removed = none → r.is_inferred = false

/-- Sequential bulk_add calls, one transaction per batch. -/
def bulkAddBatches (attrs : AttrMap) (rrm : RRM) (fuel : Nat) :
    DB → List (List Fact) → Except (String × DB) DB
  | db, [] => .ok db
  | db, b :: bs =>
      match bulk_add attrs rrm db b none fuel with
      | .error e => .error e
      | .ok p => bulkAddBatches attrs rrm fuel p.2 bs

/-- The merge condition exactly as claim C7 words it: the two
justification sets are not in a subset relation (in either direction),
the context union is commutative, and the backing fact satisfies the
pre-substitution clause under the own context. -/
def mergeSpecCond (s o : Solution) (c : Clause) : Bool :=
  (!subsetB s.derived_from o.derived_from
      && !subsetB o.derived_from s.derived_from)
    && ctxEqB (ctxUnion s.context o.context) (ctxUnion o.context s.context)
    && s.satisfies_constrain c o

/-- Whether an expression contains an In membership term. -/
def expContainsIn : LExp → Bool
  | .inSet _ _ _ => true
  | .andE l r => expContainsIn l || expContainsIn r
  | _ => false

/-- Whether a predicate head contains an In membership term. -/
def headContainsIn (cs : List Clause) : Bool :=
  cs.any (fun c => expContainsIn c.entity || expContainsIn c.value)

/-- A well-formed variable-type environment binds each name once, as the
Python dict it models. -/
abbrev vtWF (vt : VT) : Prop := (vt.map Prod.fst).Nodup

/-- The schema used by the concrete store instances: an integer
cardinality-one attribute and an integer cardinality-many attribute. -/
def attrs0 : AttrMap := fun a =>
  if a = "age" then some ⟨.int, .one⟩
  else if a = "rel" then some ⟨.int, .many⟩
  else none

/-- The empty store. -/
def dbEmpty : DB := ⟨[], [], [], 0, 0⟩

/-- A consistent store holding the single valid base fact
(e, age, 1) on the cardinality-one attribute age. -/
def dbAge1 : DB :=
  ⟨[⟨0, "e", "age", none, some 1, none, false, 0, none⟩], [], [0], 1, 1⟩

/-- A store holding one valid base row whose only value column is the
float one. -/
def dbFloat : DB :=
  ⟨[⟨0, "e", "temp", none, none, some 2, false, 0, none⟩], [], [0], 1, 1⟩

/- Section 10: context and pluck lemmas. -/

theorem ctxGet_upsert (c : Ctx) (n : String) (v : Ordinal) (k : String) :
    ctxGet (ctxUpsert c n v) k = if n = k then some v else ctxGet c k := by
  induction c with
  | nil => by_cases h : n = k <;> simp [ctxUpsert, ctxGet, h]
  | cons p rest ih =>
      obtain ⟨pk, pv⟩ := p
      by_cases h1 : pk = n
      · subst h1
        by_cases h2 : pk = k <;> simp [ctxUpsert, ctxGet, h2]
      · by_cases h2 : pk = k
        · subst h2
          have hnk : ¬n = pk := fun h => h1 h.symm
          simp [ctxUpsert, ctxGet, h1, hnk]
        · simp [ctxUpsert, ctxGet, h1, h2, ih]

theorem ctxGet_eq_none_iff (c : Ctx) (k : String) :
    ctxGet c k = none ↔ k ∉ ctxKeys c := by
  induction c with
  | nil => simp [ctxGet, ctxKeys]
  | cons p rest ih =>
      by_cases h : p.1 = k
      · simp [ctxGet, ctxKeys, h]
      · have hk : ¬k = p.1 := fun hh => h hh.symm
        simp [ctxGet, ctxKeys, h, hk, ih]

theorem ctxGet_union (a b : Ctx) (hb : ctxWF b) (k : String) :
    ctxGet (ctxUnion a b) k
      = match ctxGet b k with
        | some v => some v
        | none => ctxGet a k := by
  induction b generalizing a with
  | nil => simp [ctxUnion, ctxGet]
  | cons p rest ih =>
      obtain ⟨pk, pv⟩ := p
      have hwf : ctxWF rest := by
        simpa [ctxWF, ctxKeys] using (List.nodup_cons.mp hb).2
      have hstep : ctxUnion a ((pk, pv) :: rest)
          = ctxUnion (ctxUpsert a pk pv) rest := rfl
      rw [hstep, ih (ctxUpsert a pk pv) hwf]
      by_cases h : pk = k
      · subst h
        have hout : pk ∉ ctxKeys rest := by
          simpa [ctxWF, ctxKeys] using (List.nodup_cons.mp hb).1
        have : ctxGet rest pk = none := (ctxGet_eq_none_iff rest pk).mpr hout
        simp [this, ctxGet, ctxGet_upsert]
      · have hk : ¬pk = k := h
        simp [ctxGet, hk, ctxGet_upsert]

theorem ctxEqB_iff (a b : Ctx) :
    ctxEqB a b = true ↔ ∀ k, ctxGet a k = ctxGet b k := by
  constructor
  · intro h k
    by_cases hk : k ∈ ctxKeys a ++ ctxKeys b
    · have := (List.all_eq_true.mp h) k hk
      simpa using this
    · rw [List.mem_append] at hk
      push_neg at hk
      rw [(ctxGet_eq_none_iff a k).mpr hk.1, (ctxGet_eq_none_iff b k).mpr hk.2]
  · intro h
    apply List.all_eq_true.mpr
    intro k _
    simp [h k]

theorem union_comm_agree (a b : Ctx) (ha : ctxWF a) (hb : ctxWF b) :
    ctxEqB (ctxUnion a b) (ctxUnion b a) = true ↔
      ∀ k v w, ctxGet a k = some v → ctxGet b k = some w → v = w := by
  rw [ctxEqB_iff]
  constructor
  · intro h k v w hv hw
    have := h k
    rw [ctxGet_union a b hb k, ctxGet_union b a ha k, hv, hw] at this
    simpa using this.symm
  · intro h k
    rw [ctxGet_union a b hb k, ctxGet_union b a ha k]
    cases hv : ctxGet a k with
    | none => cases hw : ctxGet b k <;> simp
    | some v =>
        cases hw : ctxGet b k with
        | none => simp
        | some w => simpa using (h k v w hv hw).symm

theorem pluck_values_eq_none (ctxs : List Ctx) (n : String) :
    pluck_values ctxs n = none ↔ ∃ c ∈ ctxs, ctxGet c n = none := by
  induction ctxs with
  | nil => simp [pluck_values]
  | cons c rest ih =>
      cases hc : ctxGet c n with
      | none =>
          simp only [pluck_values, hc]
          exact ⟨fun _ => ⟨c, by simp, hc⟩, fun _ => trivial⟩
      | some v =>
          cases hr : pluck_values rest n with
          | none =>
              simp only [pluck_values, hc, hr]
              constructor
              · intro _
                rcases ih.mp hr with ⟨c2, hc2, hg⟩
                exact ⟨c2, by simp [hc2], hg⟩
              · intro _
                trivial
          | some vs =>
              simp only [pluck_values, hc, hr]
              constructor
              · intro h
                exact absurd h (by simp)
              · rintro ⟨c2, hc2, hg⟩
                rcases List.mem_cons.mp hc2 with h2 | h2
                · subst h2
                  rw [hc] at hg
                  exact absurd hg (by simp)
                · have : pluck_values rest n = none := ih.mpr ⟨c2, h2, hg⟩
                  rw [hr] at this
                  exact absurd this (by simp)

theorem pluck_values_mem {ctxs : List Ctx} {n : String} {vs : List Ordinal}
    (h : pluck_values ctxs n = some vs) (v : Ordinal) :
    v ∈ vs ↔ ∃ c ∈ ctxs, ctxGet c n = some v := by
  induction ctxs generalizing vs with
  | nil =>
      simp only [pluck_values, Option.some.injEq] at h
      subst h
      simp
  | cons c rest ih =>
      cases hc : ctxGet c n with
      | none => simp [pluck_values, hc] at h
      | some w =>
          cases hr : pluck_values rest n with
          | none => simp [pluck_values, hc, hr] at h
          | some ws =>
              simp only [pluck_values, hc, hr, Option.some.injEq] at h
              subst h
              have hrest := ih hr
              by_cases hw : w ∈ ws
              · simp only [if_pos hw]
                rw [hrest]
                constructor
                · rintro ⟨c2, hc2, hg⟩
                  exact ⟨c2, by simp [hc2], hg⟩
                · rintro ⟨c2, hc2, hg⟩
                  rcases List.mem_cons.mp hc2 with h2 | h2
                  · subst h2
                    rw [hc] at hg
                    obtain rfl : w = v := by simpa using hg
                    exact (hrest.mp hw).elim (fun c3 hc3 => ⟨c3, hc3.1, hc3.2⟩)
                  · exact ⟨c2, h2, hg⟩
              · simp only [if_neg hw, List.mem_cons]
                rw [hrest]
                constructor
                · rintro (rfl | ⟨c2, hc2, hg⟩)
                  · exact ⟨c, by simp, hc⟩
                  · exact ⟨c2, by simp [hc2], hg⟩
                · rintro ⟨c2, hc2, hg⟩
                  rcases hc2 with h2 | h2
                  · subst h2
                    rw [hc] at hg
                    exact Or.inl (by simpa using hg.symm)
                  · exact Or.inr ⟨c2, h2, hg⟩

theorem pluck_values_nodup {ctxs : List Ctx} {n : String} {vs : List Ordinal}
    (h : pluck_values ctxs n = some vs) : vs.Nodup := by
  induction ctxs generalizing vs with
  | nil =>
      simp only [pluck_values, Option.some.injEq] at h
      subst h
      simp
  | cons c rest ih =>
      cases hc : ctxGet c n with
      | none => simp [pluck_values, hc] at h
      | some w =>
          cases hr : pluck_values rest n with
          | none => simp [pluck_values, hc, hr] at h
          | some ws =>
              simp only [pluck_values, hc, hr, Option.some.injEq] at h
              subst h
              by_cases hw : w ∈ ws
              · simpa [if_pos hw] using ih hr
              · simp only [if_neg hw]
                exact List.nodup_cons.mpr ⟨hw, ih hr⟩

/- Section 11: the claims. -/

/-- C8: for a variable expression Var(n, t) and a batch of contexts,
substitute returns the variable unchanged when some context lacks n,
returns the constant v when every context binds n and v is the only
value bound, and returns In(n, values, t) over exactly the bound values
when several distinct values occur. -/
theorem C8_var_substitute (n : String) (ty : OrdType) (ctxs : List Ctx) :
    ((∃ c ∈ ctxs, ctxGet c n = none) → varSubstitute n ty ctxs = .var n ty)
    ∧ (∀ v : Ordinal,
        (∀ c ∈ ctxs, ctxGet c n ≠ none) →
        (∃ c ∈ ctxs, ctxGet c n = some v) →
        (∀ w : Ordinal, (∃ c ∈ ctxs, ctxGet c n = some w) → w = v) →
        varSubstitute n ty ctxs = .const v)
    ∧ (∀ v w : Ordinal, v ≠ w →
        (∀ c ∈ ctxs, ctxGet c n ≠ none) →
        (∃ c ∈ ctxs, ctxGet c n = some v) →
        (∃ c ∈ ctxs, ctxGet c n = some w) →
        ∃ vs, varSubstitute n ty ctxs = .inSet n vs ty
          ∧ ∀ u : Ordinal, (u ∈ vs ↔ ∃ c ∈ ctxs, ctxGet c n = some u)) := by
  refine ⟨?_, ?_, ?_⟩
  · intro h
    have hn : pluck_values ctxs n = none := (pluck_values_eq_none ctxs n).mpr h
    simp [varSubstitute, hn]
  · intro v hall hex huniq
    obtain ⟨vs, hvs⟩ : ∃ vs, pluck_values ctxs n = some vs := by
      cases hp : pluck_values ctxs n with
      | none =>
          rcases (pluck_values_eq_none ctxs n).mp hp with ⟨c, hc, hg⟩
          exact absurd hg (hall c hc)
      | some vs => exact ⟨vs, rfl⟩
    have hvmem : v ∈ vs := (pluck_values_mem hvs v).mpr hex
    have hall2 : ∀ u ∈ vs, u = v := fun u hu =>
      huniq u ((pluck_values_mem hvs u).mp hu)
    have hnd := pluck_values_nodup hvs
    have hsingle : vs = [v] := by
      cases vs with
      | nil => simp at hvmem
      | cons x rest =>
          have hx : x = v := hall2 x (by simp)
          subst hx
          cases rest with
          | nil => rfl
          | cons y rest2 =>
              have hy : y = x := hall2 y (by simp)
              have := (List.nodup_cons.mp hnd).1
              rw [hy] at this
              simp at this
    simp [varSubstitute, hvs, hsingle]
  · intro v w hvw hall hv hw
    obtain ⟨vs, hvs⟩ : ∃ vs, pluck_values ctxs n = some vs := by
      cases hp : pluck_values ctxs n with
      | none =>
          rcases (pluck_values_eq_none ctxs n).mp hp with ⟨c, hc, hg⟩
          exact absurd hg (hall c hc)
      | some vs => exact ⟨vs, rfl⟩
    have hvmem : v ∈ vs := (pluck_values_mem hvs v).mpr hv
    have hwmem : w ∈ vs := (pluck_values_mem hvs w).mpr hw
    cases vs with
    | nil => simp at hvmem
    | cons x rest =>
        cases rest with
        | nil =>
            simp only [List.mem_singleton] at hvmem hwmem
            exact absurd (hvmem.trans hwmem.symm) hvw
        | cons y rest2 =>
            refine ⟨x :: y :: rest2, by simp [varSubstitute, hvs], ?_⟩
            intro u
            exact pluck_values_mem hvs u

/-- Witness for C8 at concrete inputs: an unbound variable stays a
variable, and a uniquely bound one becomes the constant. -/
theorem C8_witness :
    varSubstitute "n" .int [[("m", .i 1)]] = .var "n" .int
    ∧ varSubstitute "n" .int [[("n", .i 5)]] = .const (.i 5) := by
  constructor
  · exact (C8_var_substitute "n" .int [[("m", .i 1)]]).1 (by decide)
  · refine (C8_var_substitute "n" .int [[("n", .i 5)]]).2.1 (.i 5)
      (by decide) (by decide) ?_
    intro w hw
    rcases hw with ⟨c, hc, hg⟩
    simp only [List.mem_singleton] at hc
    subst hc
    simp [ctxGet] at hg
    exact hg.symm

/-- C10: a stored fact whose only non-null value column is value_float is
unreadable: the value property and as_fact raise instead of returning
the float, although the schema admits Float values. -/
theorem C10_float_value_unreadable (r : FactRow) (h1 : r.value_str = none)
    (h2 : r.value_int = none) (_h3 : r.value_float.isSome = true) :
    r.value = .error "This fact has no value at all"
    ∧ r.asFact = .error "This fact has no value at all" := by
  constructor
  · simp [FactRow.value, h1, h2]
  · simp [FactRow.asFact, FactRow.value, h1, h2]

/-- Witness for C10 on a concrete float-valued row. -/
theorem C10_witness :
    (FactRow.mk 0 "e" "temp" none none (some 2) false 0 none).value
      = .error "This fact has no value at all" :=
  (C10_float_value_unreadable
    (FactRow.mk 0 "e" "temp" none none (some 2) false 0 none)
    rfl rfl rfl).1

/-- C4: the lookup filter derived from a comparison with the constant on
the left is incomplete: the stored value 3 satisfies the clause
3 less-or-equal x (matches yields a binding), yet the filter derived
through reverse_operator is x strictly-greater 3, which rejects it, so
the store lookup drops a matching fact. -/
theorem C4_lookup_filter_incomplete :
    mExp (.comparison .le (.constArg (.i 3)) (.varArg "x" .int)) (.i 3)
      = [[("x", .i 3)]]
    ∧ lookupQTest (.comparison .le (.constArg (.i 3)) (.varArg "x" .int))
        (.i 3) = some false := by decide

/-- Counterexample for C9: rewriting the comparison 1 less-than 10 during
substitution introduces a hidden variable whose fresh name does not
start with the star sentinel, and the planner weights it 1, not 10. -/
theorem C9_counterexample :
    (substLExp (.comparison .lt (.constArg (.i 1)) (.constArg (.i 10))) [] 0).1
      = .andE (.comparison .lt (.constArg (.i 1)) (.varArg (uuidStr 0) .int))
              (.comparison .lt (.varArg (uuidStr 0) .int) (.constArg (.i 10)))
    ∧ startsWithStar (uuidStr 0) = false
    ∧ plannerWeight (uuidStr 0) = 1 := by decide

/-- C9 as amended: hidden variables introduced by comparison rewriting
receive fresh unique uuid names, but those names are not prefixed with
the star sentinel, so the planner weights them 1 like ordinary
variables rather than 10 like wildcards. -/
theorem C9_hidden_variable_names (ty : OrdType) (seed : Nat) :
    Var.new_hidden ty seed = .var (uuidStr seed) ty
    ∧ startsWithStar (uuidStr seed) = false
    ∧ plannerWeight (uuidStr seed) = 1
    ∧ ∀ s1 s2 : Nat, uuidStr s1 = uuidStr s2 → s1 = s2 := by
  have hsw : startsWithStar (uuidStr seed) = false := by
    simp [startsWithStar, uuidStr, List.replicate]
  refine ⟨rfl, hsw, ?_, ?_⟩
  · simp [plannerWeight, hsw]
  · intro s1 s2 h
    have hd : List.replicate (s1 + 1) 'f' = List.replicate (s2 + 1) 'f' :=
      congrArg String.data h
    have hl := congrArg List.length hd
    simp at hl
    omega

/-- Witness for C9 at seed 3. -/
theorem C9_witness :
    startsWithStar (uuidStr 3) = false ∧ (3 : Nat) = 3 :=
  ⟨(C9_hidden_variable_names .int 3).2.1,
   (C9_hidden_variable_names .int 3).2.2.2 3 3 rfl⟩

/-- Counterexample for C6: a rule whose head contains an In expression
over a body-covered variable is accepted by rule construction, although
the claim says construction fails whenever the head contains an In. -/
theorem C6_counterexample :
    (ruleInit [⟨.var "c" .str, "child_of", .var "p" .str⟩]
        [⟨.var "c" .str, "sibling_of", .inSet "p" [.s "father"] .str⟩]).toOption
      = some [("c", .str), ("p", .str)]
    ∧ headContainsIn
        [⟨.var "c" .str, "sibling_of", .inSet "p" [.s "father"] .str⟩]
      = true := by decide

/-- Counterexample for C7: the empty solution (whose justification set is
a subset of every set) does merge with a fact-backed solution, although
condition (1) of the claim, that the justification sets not be in a
subset relation, fails. -/
theorem C7_counterexample :
    ((Solution.mk [] []).mergeOne
        (Solution.mk [("x", .i 1)] [("e1", "a", .i 1)])
        (Clause.mk (.var "e" .str) "a" (.var "v" .int))).isSome = true
    ∧ mergeSpecCond (Solution.mk [] [])
        (Solution.mk [("x", .i 1)] [("e1", "a", .i 1)])
        (Clause.mk (.var "e" .str) "a" (.var "v" .int)) = false := by decide

theorem subsetB_true_iff (a b : List Fact) :
    subsetB a b = true ↔ ∀ x ∈ a, x ∈ b := by
  simp [subsetB]

theorem subsetB_false_iff (a b : List Fact) :
    subsetB a b = false ↔ ∃ x ∈ a, x ∉ b := by
  constructor
  · intro h
    by_contra hems
    push_neg at hems
    have : subsetB a b = true := (subsetB_true_iff a b).mpr hems
    rw [this] at h
    simp at h
  · rintro ⟨x, hxa, hxb⟩
    cases hsb : subsetB a b with
    | false => rfl
    | true => exact absurd ((subsetB_true_iff a b).mp hsb x hxa) hxb

theorem factUnion_mem (a b : List Fact) (x : Fact) :
    x ∈ factUnion a b ↔ x ∈ a ∨ x ∈ b := by
  simp [factUnion]
  tauto

/-- C7 as amended: for solutions s and o with o backed by the single fact
f, merge yields a solution exactly when (1) the justification set of s
is empty or is not a subset of that of o, (2) the contexts agree on
every shared variable, and (3) f satisfies the pre-substitution clause
under the context of s; the merged context is the union of the contexts
and the merged justification the union of the justification sets. -/
theorem C7_solution_merge (s o : Solution) (c : Clause) (f : Fact)
    (hf : o.derived_from = [f])
    (ha : ctxWF s.context) (hb : ctxWF o.context) :
    ((s.mergeOne o c).isSome = true ↔
      (s.derived_from = [] ∨ ∃ x ∈ s.derived_from, x ∉ o.derived_from)
      ∧ (∀ k v w, ctxGet s.context k = some v →
            ctxGet o.context k = some w → v = w)
      ∧ ((c.substitute [s.context] 0).1.matches f ≠ []))
    ∧ (∀ m, s.mergeOne o c = some m →
        (∀ k, ctxGet m.context k
            = match ctxGet o.context k with
              | some v => some v
              | none => ctxGet s.context k)
        ∧ (∀ x, x ∈ m.derived_from ↔
              x ∈ s.derived_from ∨ x ∈ o.derived_from)) := by
  have hsat : s.satisfies_constrain c o
      = !((c.substitute [s.context] 0).1.matches f).isEmpty := by
    simp [Solution.satisfies_constrain, hf]
  constructor
  · unfold Solution.mergeOne
    split
    case isTrue h =>
      simp only [Option.isSome_some, true_iff]
      obtain ⟨⟨h1, h2⟩, h3⟩ : ((s.derived_from.isEmpty
            || !subsetB s.derived_from o.derived_from) = true
          ∧ ctxEqB (ctxUnion s.context o.context)
              (ctxUnion o.context s.context) = true)
          ∧ s.satisfies_constrain c o = true := by
        simpa [Bool.and_eq_true] using h
      refine ⟨?_, (union_comm_agree _ _ ha hb).mp h2, ?_⟩
      · have h1or : s.derived_from.isEmpty = true
            ∨ (!subsetB s.derived_from o.derived_from) = true := by
          simpa using h1
        rcases h1or with hE | hNS
        · exact Or.inl (by simpa using hE)
        · right
          have hfalse : subsetB s.derived_from o.derived_from = false := by
            cases hsb : subsetB s.derived_from o.derived_from with
            | false => rfl
            | true => rw [hsb] at hNS; simp at hNS
          exact (subsetB_false_iff _ _).mp hfalse
      · rw [hsat] at h3
        intro hnil
        rw [hnil] at h3
        simp at h3
    case isFalse h =>
      refine ⟨fun hff => absurd hff (by simp), ?_⟩
      rintro ⟨hA, hB, hC⟩
      exfalso
      apply h
      have hb1 : (s.derived_from.isEmpty
          || !subsetB s.derived_from o.derived_from) = true := by
        rcases hA with hE | hx
        · simp [hE]
        · have := (subsetB_false_iff _ _).mpr hx
          simp [this]
      have hb2 := (union_comm_agree _ _ ha hb).mpr hB
      have hb3 : s.satisfies_constrain c o = true := by
        rw [hsat]
        cases hL : (c.substitute [s.context] 0).1.matches f with
        | nil => exact absurd hL hC
        | cons a l => simp
      simp [hb1, hb2, hb3]
  · intro m hm
    unfold Solution.mergeOne at hm
    split at hm
    case isTrue h =>
      injection hm with hmn
      subst hmn
      constructor
      · intro k
        exact ctxGet_union s.context o.context hb k
      · intro x
        exact factUnion_mem _ _ x
    case isFalse h => exact absurd hm (by simp)

/-- Witness for C7: two disjoint fact-backed solutions merge, via the
amended characterization. -/
theorem C7_witness :
    ((Solution.mk [("y", Ordinal.i 2)] [("e2", "b", Ordinal.i 2)]).mergeOne
      (Solution.mk [("x", Ordinal.i 1)] [("e1", "a", Ordinal.i 1)])
      (Clause.mk (.var "e" .str) "a" (.var "v" .int))).isSome = true := by
  refine ((C7_solution_merge _ _ _ ("e1", "a", Ordinal.i 1) rfl (by decide)
    (by decide)).1).mpr ⟨?_, ?_, ?_⟩
  · exact Or.inr ⟨("e2", "b", Ordinal.i 2), by decide, by decide⟩
  · intro k v w hv hw
    simp only [ctxGet, Option.ite_none_right_eq_some] at hv hw
    exact absurd (hv.1.trans hw.1.symm) (by decide)
  · decide

theorem vtGet_eq_none_iff (vt : VT) (n : String) :
    vtGet vt n = none ↔ n ∉ vt.map Prod.fst := by
  induction vt with
  | nil => simp [vtGet]
  | cons p rest ih =>
      by_cases h : p.1 = n
      · simp [vtGet, h]
      · have hk : ¬n = p.1 := fun hh => h hh.symm
        simp [vtGet, h, hk, ih]

theorem vtGet_append (a c : VT) (n : String) :
    vtGet (a ++ c) n
      = match vtGet a n with
        | some t => some t
        | none => vtGet c n := by
  induction a with
  | nil => simp [vtGet]
  | cons p rest ih =>
      by_cases h : p.1 = n <;> simp [vtGet, h, ih]

theorem mmAdd_ne_nil (mm : MM) (n : String) (ts : List OrdType) :
    mmAdd mm n ts ≠ [] := by
  cases mm with
  | nil => simp [mmAdd]
  | cons p rest =>
      by_cases h : p.1 = n <;> simp [mmAdd, h]

theorem foldl_addVar_present (l : VT) (b : VT) (mm0 : MM)
    (hp : ∀ p ∈ l, (vtGet b p.1).isSome = true) :
    (l.foldl addVar (b, mm0)).1 = b
    ∧ ((l.foldl addVar (b, mm0)).2 = [] ↔
        mm0 = [] ∧ ∀ p ∈ l, vtGet b p.1 = some p.2) := by
  induction l generalizing mm0 with
  | nil => simp
  | cons p l' ih =>
      obtain ⟨t, ht⟩ : ∃ t, vtGet b p.1 = some t := by
        have h0 := hp p (by simp)
        cases h : vtGet b p.1 with
        | none => rw [h] at h0; simp at h0
        | some t => exact ⟨t, rfl⟩
      have hp' : ∀ q ∈ l', (vtGet b q.1).isSome = true := fun q hq =>
        hp q (by simp [hq])
      by_cases hte : t = p.2
      · subst hte
        have hstep : addVar (b, mm0) p = (b, mm0) := by simp [addVar, ht]
        rw [List.foldl_cons, hstep]
        obtain ⟨ih1, ih2⟩ := ih mm0 hp'
        refine ⟨ih1, ?_⟩
        rw [ih2]
        constructor
        · rintro ⟨hmm, hrest⟩
          refine ⟨hmm, ?_⟩
          intro q hq
          rcases List.mem_cons.mp hq with rfl | hq2
          · exact ht
          · exact hrest q hq2
        · rintro ⟨hmm, hall⟩
          exact ⟨hmm, fun q hq => hall q (by simp [hq])⟩
      · have hstep : addVar (b, mm0) p = (b, mmAdd mm0 p.1 [t, p.2]) := by
          simp [addVar, ht, hte]
        rw [List.foldl_cons, hstep]
        obtain ⟨ih1, ih2⟩ := ih (mmAdd mm0 p.1 [t, p.2]) hp'
        refine ⟨ih1, ?_⟩
        rw [ih2]
        constructor
        · rintro ⟨hmm, _⟩
          exact absurd hmm (mmAdd_ne_nil mm0 p.1 [t, p.2])
        · rintro ⟨_, hall⟩
          have := hall p (by simp)
          rw [ht] at this
          exact absurd (by simpa using this) hte

theorem foldl_addVar_fresh (l : VT) (b : VT) (mm0 : MM) (hw : vtWF l)
    (hfresh : ∀ p ∈ l, vtGet b p.1 = none) :
    l.foldl addVar (b, mm0) = (b ++ l, mm0) := by
  induction l generalizing b with
  | nil => simp
  | cons p l' ih =>
      have hstep : addVar (b, mm0) p = (b ++ [p], mm0) := by
        simp [addVar, hfresh p (by simp)]
      rw [List.foldl_cons, hstep]
      have hw' : vtWF l' := by
        simpa [vtWF] using (List.nodup_cons.mp (by simpa [vtWF] using hw)).2
      have hfresh' : ∀ q ∈ l', vtGet (b ++ [p]) q.1 = none := by
        intro q hq
        rw [vtGet_append, hfresh q (by simp [hq])]
        have hne : ¬p.1 = q.1 := by
          have hout : p.1 ∉ l'.map Prod.fst :=
            (List.nodup_cons.mp (by simpa [vtWF] using hw)).1
          intro he
          exact hout (he ▸ List.mem_map.mpr ⟨q, hq, rfl⟩)
        simp [vtGet, hne]
      rw [ih (b ++ [p]) hw' hfresh']
      simp

theorem addVar_wf (st : VT × MM) (p : String × OrdType) (h : vtWF st.1) :
    vtWF (addVar st p).1 := by
  unfold addVar
  cases hg : vtGet st.1 p.1 with
  | some t =>
      by_cases hte : t = p.2 <;> simp [hte, h]
  | none =>
      have hnot : p.1 ∉ st.1.map Prod.fst := (vtGet_eq_none_iff st.1 p.1).mp hg
      show vtWF (st.1 ++ [p])
      have hnd : (st.1.map Prod.fst ++ [p.1]).Nodup := by
        rw [List.nodup_append]
        refine ⟨h, by simp, ?_⟩
        intro a ha hb
        simp only [List.mem_singleton] at hb
        subst hb
        exact hnot ha
      simpa [vtWF] using hnd

theorem foldl_addVar_wf (l : VT) (st : VT × MM) (h : vtWF st.1) :
    vtWF ((l.foldl addVar st).1) := by
  induction l generalizing st with
  | nil => exact h
  | cons p l' ih => exact ih (addVar st p) (addVar_wf st p h)

theorem mergeStep_wf (st : VT × MM) (r : Except MM VT) (h : vtWF st.1) :
    vtWF ((mergeStep st r).1) := by
  cases r with
  | ok vt => exact foldl_addVar_wf vt st h
  | error mm => exact h

theorem foldl_mergeStep_wf (rs : List (Except MM VT)) (st : VT × MM)
    (h : vtWF st.1) : vtWF ((rs.foldl mergeStep st).1) := by
  induction rs generalizing st with
  | nil => exact h
  | cons r rs' ih => exact ih (mergeStep st r) (mergeStep_wf st r h)

theorem merge_ok_wf (rs : List (Except MM VT)) (vt : VT)
    (h : VarTypes.merge rs = .ok vt) : vtWF vt := by
  have h2 : (if ((rs.foldl mergeStep ([], [])).2).isEmpty = true
      then (Except.ok ((rs.foldl mergeStep ([], [])).1) : Except MM VT)
      else Except.error ((rs.foldl mergeStep ([], [])).2)) = Except.ok vt := h
  by_cases he : ((rs.foldl mergeStep ([], [])).2).isEmpty = true
  · rw [if_pos he] at h2
    injection h2 with h3
    subst h3
    exact foldl_mergeStep_wf rs ([], []) (by simp [vtWF])
  · rw [if_neg he] at h2
    exact absurd h2 (by simp)

theorem mergeVT_two_state (b i : VT) (hwb : vtWF b) :
    [Except.ok b, Except.ok i].foldl mergeStep ([], [])
      = i.foldl addVar (b, ([] : MM)) := by
  have h1 : mergeStep (([] : VT), ([] : MM)) (.ok b) = (b, []) := by
    have := foldl_addVar_fresh b [] [] hwb (fun p _ => rfl)
    simpa [mergeStep] using this
  rw [List.foldl_cons, h1, List.foldl_cons, List.foldl_nil]
  rfl

theorem mergeVT_two_pos (b i : VT) (hwb : vtWF b)
    (hagree : ∀ p ∈ i, vtGet b p.1 = some p.2) :
    VarTypes.merge [.ok b, .ok i] = .ok b := by
  have hp : ∀ p ∈ i, (vtGet b p.1).isSome = true := by
    intro p hp2
    rw [hagree p hp2]
    rfl
  obtain ⟨h1, h2⟩ := foldl_addVar_present i b [] hp
  have hmm : (i.foldl addVar (b, ([] : MM))).2 = [] :=
    h2.mpr ⟨rfl, hagree⟩
  unfold VarTypes.merge
  rw [mergeVT_two_state b i hwb]
  rw [if_pos (by simp [hmm])]
  rw [h1]

theorem mergeVT_two_neg (b i : VT) (hwb : vtWF b)
    (hp : ∀ p ∈ i, (vtGet b p.1).isSome = true)
    (hnag : ¬∀ p ∈ i, vtGet b p.1 = some p.2) :
    ∃ mm, VarTypes.merge [.ok b, .ok i] = .error mm := by
  obtain ⟨h1, h2⟩ := foldl_addVar_present i b [] hp
  have hmm : (i.foldl addVar (b, ([] : MM))).2 ≠ [] := by
    intro he
    exact hnag (h2.mp he).2
  refine ⟨(i.foldl addVar (b, ([] : MM))).2, ?_⟩
  unfold VarTypes.merge
  rw [mergeVT_two_state b i hwb]
  rw [if_neg (by simpa using hmm)]

/-- C6 as amended: rule construction, given well-typed body and head
predicates, succeeds exactly when no head variable name carries the star
wildcard marker (the Any sentinel) and every head variable appears in
the body with the same type; a head containing In or comparison
expressions over such variables is accepted, contrary to the original
claim. -/
theorem C6_rule_head_validation (body implies : List Clause) (bVT iVT : VT)
    (hbody : predicateVT body = .ok bVT) (himp : predicateVT implies = .ok iVT) :
    (ruleInit body implies).toOption.isSome = true ↔
      ∀ p ∈ iVT, startsWithStar p.1 = false ∧ vtGet bVT p.1 = some p.2 := by
  have hwb : vtWF bVT := merge_ok_wf _ _ hbody
  unfold ruleInit
  rw [hbody, himp]
  by_cases hstar : (iVT.map Prod.fst).any (fun n => startsWithStar n) = true
  · obtain ⟨n, hnmem, hn⟩ := List.any_eq_true.mp hstar
    obtain ⟨p, hp, rfl⟩ := List.mem_map.mp hnmem
    simp only [hstar, if_true]
    refine ⟨fun hff => absurd hff (by simp [Except.toOption]), fun hall => ?_⟩
    have := (hall p hp).1
    rw [this] at hn
    exact absurd hn (by simp)
  · have hstar' : ((iVT.map Prod.fst).any (fun n => startsWithStar n)) = false := by
      cases h : (iVT.map Prod.fst).any (fun n => startsWithStar n) with
      | true => exact absurd h hstar
      | false => rfl
    have hstarAll : ∀ p ∈ iVT, startsWithStar p.1 = false := by
      intro p hp
      cases h : startsWithStar p.1 with
      | false => rfl
      | true =>
          exact absurd (List.any_eq_true.mpr
            ⟨p.1, List.mem_map.mpr ⟨p, hp, rfl⟩, h⟩) hstar
    simp only [hstar', Bool.false_eq_true, if_false]
    by_cases hmiss : (iVT.map Prod.fst).any (fun n => (vtGet bVT n).isNone) = true
    · obtain ⟨n, hnmem, hn⟩ := List.any_eq_true.mp hmiss
      obtain ⟨p, hp, rfl⟩ := List.mem_map.mp hnmem
      simp only [hmiss, if_true]
      refine ⟨fun hff => absurd hff (by simp [Except.toOption]), fun hall => ?_⟩
      have := (hall p hp).2
      rw [this] at hn
      simp at hn
    · have hmiss' : ((iVT.map Prod.fst).any (fun n => (vtGet bVT n).isNone))
          = false := by
        cases h : (iVT.map Prod.fst).any (fun n => (vtGet bVT n).isNone) with
        | true => exact absurd h hmiss
        | false => rfl
      have hpres : ∀ p ∈ iVT, (vtGet bVT p.1).isSome = true := by
        intro p hp
        cases h : vtGet bVT p.1 with
        | some t => rfl
        | none =>
            exact absurd (List.any_eq_true.mpr
              ⟨p.1, List.mem_map.mpr ⟨p, hp, rfl⟩, by simp [h]⟩) hmiss
      simp only [hmiss', Bool.false_eq_true, if_false]
      by_cases hagree : ∀ p ∈ iVT, vtGet bVT p.1 = some p.2
      · rw [mergeVT_two_pos bVT iVT hwb hagree]
        simp only [Except.toOption, Option.isSome_some, true_iff]
        intro p hp
        exact ⟨hstarAll p hp, hagree p hp⟩
      · obtain ⟨mm, hmm⟩ := mergeVT_two_neg bVT iVT hwb hpres hagree
        rw [hmm]
        refine ⟨fun hff => absurd hff (by simp [Except.toOption]), ?_⟩
        intro hall
        exact absurd (fun p hp => (hall p hp).2) hagree

/-- Witness for C6: the sibling-style rule with an In head over a covered
variable is accepted. -/
theorem C6_witness :
    (ruleInit [⟨.var "c" .str, "child_of", .var "p" .str⟩]
        [⟨.var "c" .str, "sibling_of",
          .inSet "p" [.s "father"] .str⟩]).toOption.isSome = true := by
  refine (C6_rule_head_validation
    [⟨.var "c" .str, "child_of", .var "p" .str⟩]
    [⟨.var "c" .str, "sibling_of", .inSet "p" [.s "father"] .str⟩]
    [("c", .str), ("p", .str)] [("c", .str), ("p", .str)] rfl rfl).mpr ?_
  decide

/-- Counterexample for C1: on a consistent store holding the valid base
fact (e, age, 1) under the cardinality-one attribute age, bulk_add of
(e, age, 2) supersedes the old value and the following bulk_remove of
the same batch does not restore it: the valid-now contents differ from
the initial ones. -/
theorem C1_counterexample :
    (((bulk_add attrs0 rrmEmpty dbAge1 [("e", "age", .i 2)] none 1).toOption.bind
        (fun p => (bulk_remove rrmEmpty p.2 [("e", "age", .i 2)] 1).toOption)).map
      (fun p => memVN p.2 ("e", "age", .i 1))) = some false
    ∧ memVN dbAge1 ("e", "age", .i 1) = true := by decide

/-- Counterexample for C2: inserting the same two facts on the
cardinality-one attribute age in one batch leaves both valid, while
splitting them across two bulk_add transactions leaves only the second,
so the closure depends on how the insertion is split. -/
theorem C2_counterexample :
    ((bulk_add attrs0 rrmEmpty dbEmpty
        [("e", "age", .i 1), ("e", "age", .i 2)] none 1).toOption.map
      (fun p => memVN p.2 ("e", "age", .i 1))) = some true
    ∧ (((bulk_add attrs0 rrmEmpty dbEmpty [("e", "age", .i 1)] none 1).toOption.bind
        (fun p =>
          (bulk_add attrs0 rrmEmpty p.2 [("e", "age", .i 2)] none 1).toOption)).map
      (fun p => memVN p.2 ("e", "age", .i 1))) = some false := by decide

/-- Counterexample for C3: one bulk_add batch carrying two values for the
same entity under the cardinality-one attribute age commits with both
facts valid-now, violating the at-most-one invariant. -/
theorem C3_counterexample :
    ((bulk_add attrs0 rrmEmpty dbEmpty
        [("e", "age", .i 1), ("e", "age", .i 2)] none 1).toOption.map
      (fun p => memVN p.2 ("e", "age", .i 1) && memVN p.2 ("e", "age", .i 2)))
      = some true
    ∧ attrs0 "age" = some ⟨.int, .one⟩ := by decide

/-- Counterexample for C5: removing a valid fact that is not derived can
still fail: a float-valued stored fact is unreadable (claim C10), so
bulk_remove raises although no fact in the batch is inferred. -/
theorem C5_counterexample :
    (bulk_remove rrmEmpty dbFloat [("e", "temp", .f 2)] 1).toOption = none
    ∧ (asOfNow dbFloat.facts).all (fun r => !r.is_inferred) = true := by decide

/- Section 12: store lemmas. -/

theorem list_map_id {α : Type} (l : List α) (f : α → α) (h : ∀ a ∈ l, f a = a) :
    l.map f = l := by
  induction l with
  | nil => rfl
  | cons a l ih => simp [h a (by simp), ih (fun x hx => h x (by simp [hx]))]

theorem bulkAddLoop_empty (rrm : RRM) (tx fuel : Nat) (db : DB) :
    bulkAddLoop rrm tx fuel db [] = .ok db := by
  cases fuel <;> rfl

theorem buildSolQ_empty (step : List Fact → List (Fact × String × List Fact))
    (fuel : Nat) (q : Option (SolutionRow → Bool)) :
    buildSolQ step fuel [] q = .ok q := by
  cases fuel <;> rfl

theorem garbageCollect_id (db : DB) (tx : Nat) (h : noValidInferred db) :
    garbageCollect db tx = db := by
  unfold garbageCollect
  rw [list_map_id]
  · intro r hr
    cases hrem : r.removed with
    | some t => simp [hrem]
    | none => simp [hrem, h r hr hrem]

theorem mkRows_props (tx : Nat) (isInf : Bool) (fs : List Fact) :
    ∀ (id : Nat), ∀ r ∈ mkRows tx isInf id fs,
      r.removed = none ∧ r.is_inferred = isInf
        ∧ ∃ g ∈ fs, ∃ i, r = mkRow tx isInf i g := by
  induction fs with
  | nil => intro id r hr; simp [mkRows] at hr
  | cons f fs ih =>
      intro id r hr
      rcases List.mem_cons.mp hr with rfl | h2
      · exact ⟨rfl, rfl, f, by simp, id, rfl⟩
      · obtain ⟨h1, h2', g, hg, i, hi⟩ := ih (id + 1) r h2
        exact ⟨h1, h2', g, by simp [hg], i, hi⟩

theorem mkRow_asFact (tx : Nat) (isInf : Bool) (id : Nat) (g : Fact)
    (h : g.2.2.typeOf ≠ .float) : (mkRow tx isInf id g).asFact = .ok g := by
  obtain ⟨ge, ga, gv⟩ := g
  cases gv with
  | s v => rfl
  | i v => rfl
  | f v => exact absurd rfl h

theorem mkRows_mapM_ok (tx : Nat) (isInf : Bool) (fs : List Fact)
    (hnf : ∀ f ∈ fs, f.2.2.typeOf ≠ .float) :
    ∀ id : Nat, (mkRows tx isInf id fs).mapM FactRow.asFact = .ok fs := by
  induction fs with
  | nil => intro _; rfl
  | cons f fs ih =>
      intro id
      have h1 : (mkRow tx isInf id f).asFact = .ok f :=
        mkRow_asFact tx isInf id f (hnf f (by simp))
      have h2 := ih (fun g hg => hnf g (by simp [hg])) (id + 1)
      simp only [mkRows, List.mapM_cons, h1, h2]
      rfl

theorem factRowMatches_mkRow (tx : Nat) (b : Bool) (id : Nat) (g f : Fact) :
    factRowMatches (mkRow tx b id g) f = true ↔ g = f := by
  obtain ⟨ge, ga, gv⟩ := g
  obtain ⟨fe, fa, fv⟩ := f
  cases gv <;> cases fv <;>
    simp [mkRow, mkColumns, factRowMatches, Prod.ext_iff] <;> tauto

theorem asOfNow_append (a b : List FactRow) :
    asOfNow (a ++ b) = asOfNow a ++ asOfNow b := by
  simp [asOfNow]

theorem mkRows_asOfNow (tx : Nat) (isInf : Bool) (fs : List Fact) (id : Nat) :
    asOfNow (mkRows tx isInf id fs) = mkRows tx isInf id fs := by
  apply List.filter_eq_self.mpr
  intro r hr
  simp [(mkRows_props tx isInf fs id r hr).1]

theorem mkRows_any_matches (tx : Nat) (b : Bool) (fs : List Fact) (f : Fact) :
    ∀ id : Nat,
      ((mkRows tx b id fs).any (fun r => factRowMatches r f)) = true ↔ f ∈ fs := by
  induction fs with
  | nil => intro _; simp [mkRows]
  | cons g gs ih =>
      intro id
      simp only [mkRows, List.any_cons, Bool.or_eq_true,
        factRowMatches_mkRow, ih (id + 1), List.mem_cons]
      constructor
      · rintro (rfl | h)
        · exact Or.inl rfl
        · exact Or.inr h
      · rintro (rfl | h)
        · exact Or.inl rfl
        · exact Or.inr h

theorem foldl_dedup_mem (l acc : List Fact) (x : Fact) :
    x ∈ l.foldl (fun acc f => if f ∈ acc then acc else acc ++ [f]) acc ↔
      x ∈ acc ∨ x ∈ l := by
  induction l generalizing acc with
  | nil => simp
  | cons f fs ih =>
      rw [List.foldl_cons]
      by_cases hf : f ∈ acc
      · rw [if_pos hf, ih]
        constructor
        · rintro (h | h)
          · exact Or.inl h
          · exact Or.inr (by simp [h])
        · rintro (h | h)
          · exact Or.inl h
          · rcases List.mem_cons.mp h with rfl | h2
            · exact Or.inl hf
            · exact Or.inr h2
      · rw [if_neg hf, ih]
        simp only [List.mem_append, List.mem_singleton, List.mem_cons]
        tauto

theorem dedupFacts_mem (l : List Fact) (x : Fact) :
    x ∈ dedupFacts l ↔ x ∈ l := by
  unfold dedupFacts
  rw [foldl_dedup_mem]
  simp

theorem memVN_insert (db : DB) (tx : Nat) (isInf : Bool) (fs : List Fact)
    (f : Fact) :
    memVN (insertRows db tx isInf fs).1 f = true ↔
      (memVN db f = true ∨ f ∈ fs) := by
  show ((asOfNow (db.facts ++ mkRows tx isInf db.nextFactId fs)).any
    (fun r => factRowMatches r f)) = true ↔ _
  rw [asOfNow_append, List.any_append, mkRows_asOfNow]
  rw [Bool.or_eq_true, mkRows_any_matches]
  exact Iff.rfl

theorem noValidInferred_insert (db : DB) (tx : Nat) (fs : List Fact)
    (h : noValidInferred db) :
    noValidInferred (insertRows db tx false fs).1 := by
  intro r hr hrem
  have hr2 : r ∈ db.facts ++ mkRows tx false db.nextFactId fs := hr
  rcases List.mem_append.mp hr2 with h1 | h2
  · exact h r h1 hrem
  · exact (mkRows_props tx false fs db.nextFactId r h2).2.1

theorem noValidInferred_newTx (db : DB) (h : noValidInferred db) :
    noValidInferred (db.newTx).2 := h

theorem filterCardOne_many (attrs : AttrMap) (l : List Fact)
    (h : ∀ f ∈ l, (attrs f.2.1).any (fun a => a.cardinality == Card.many) = true) :
    filterCardOne attrs l = .ok [] := by
  induction l with
  | nil => rfl
  | cons f fs ih =>
      have hf := h f (by simp)
      cases hA : attrs f.2.1 with
      | none => rw [hA] at hf; simp at hf
      | some A =>
          rw [hA] at hf
          have hcard : A.cardinality = Card.many := by
            simpa using hf
          have hone : ¬A.cardinality = Card.one := by
            rw [hcard]; intro hc; cases hc
          have ih2 := ih (fun g hg => h g (by simp [hg]))
          simp [filterCardOne, hA, ih2, hone]

theorem removePreviousValues_many (attrs : AttrMap) (rrm : RRM) (db : DB)
    (tx : Nat) (facts : List Fact) (fuel : Nat)
    (h : ∀ f ∈ facts, (attrs f.2.1).any (fun a => a.cardinality == Card.many) = true) :
    removePreviousValues attrs rrm db tx facts fuel = .ok db := by
  unfold removePreviousValues
  rw [filterCardOne_many attrs facts h]
  rfl

theorem list_any_false {α : Type} (l : List α) (p : α → Bool)
    (h : ∀ x ∈ l, p x = false) : l.any p = false := by
  induction l with
  | nil => rfl
  | cons a l ih =>
      simp [h a (by simp), ih (fun x hx => h x (by simp [hx]))]

theorem rrmEmpty_eq (db : DB) (l : List Fact) : rrmEmpty db l = [] := rfl

theorem filterMap_pending_none
    (F : Fact × Option String × Option (List Fact) → Option SolutionRow)
    (f : Fact) (l : List Fact)
    (hF : ∀ g : Fact, F (g, none, none) = none) :
    List.filterMap F ((f, none, none) :: l.map (fun g => (g, none, none)))
      = [] := by
  show List.filterMap F ((f :: l).map (fun g => (g, none, none))) = []
  rw [List.filterMap_map]
  exact List.filterMap_eq_nil_iff.mpr (fun a _ => hF a)

theorem bulkAddLoop_rrmEmpty (tx fuel : Nat) (db : DB) (facts : List Fact)
    (hnf : ∀ f ∈ facts, f.2.2.typeOf ≠ .float) :
    bulkAddLoop rrmEmpty tx (fuel + 1) db
        (facts.map (fun f => (f, none, none)))
      = .ok (insertRows db tx false (dedupFacts facts)).1 := by
  cases facts with
  | nil =>
      rw [show (([] : List Fact).map (fun f =>
        ((f : Fact), (none : Option String), (none : Option (List Fact)))))
        = [] from rfl]
      rw [bulkAddLoop_empty]
      simp [insertRows, dedupFacts, mkRows]
  | cons f fs =>
      simp only [List.map_cons, bulkAddLoop]
      rw [show (((f, (none : Option String), (none : Option (List Fact)))
          :: List.map (fun g => ((g : Fact), (none : Option String),
            (none : Option (List Fact)))) fs).any fun t => t.2.1.isSome)
        = false from list_any_false _ _ (by
          intro x hx
          rcases List.mem_cons.mp hx with rfl | hx2
          · rfl
          · obtain ⟨g, _, rfl⟩ := List.mem_map.mp hx2
            rfl)]
      rw [show List.map (fun t => t.1)
          (List.map (fun g => ((g : Fact), (none : Option String),
            (none : Option (List Fact)))) fs) = fs from by
        rw [List.map_map]
        exact (List.map_congr_left (fun a _ => rfl)).trans (List.map_id fs)]
      have hnf2 : ∀ g ∈ dedupFacts (f :: fs), g.2.2.typeOf ≠ .float :=
        fun g hg => hnf g ((dedupFacts_mem (f :: fs) g).mp hg)
      have hmapM : List.mapM (fun r => FactRow.asFact r)
          (insertRows db tx false (dedupFacts (f :: fs))).2
          = .ok (dedupFacts (f :: fs)) :=
        mkRows_mapM_ok tx false (dedupFacts (f :: fs)) hnf2 db.nextFactId
      rw [hmapM]
      rw [filterMap_pending_none _ f fs (fun g => rfl)]
      simp [rrmEmpty, bulkAddLoop_empty]

theorem bulk_add_rrmEmpty (attrs : AttrMap) (db : DB) (B : List Fact)
    (fuel : Nat)
    (hmany : ∀ f ∈ B, (attrs f.2.1).any (fun a => a.cardinality == Card.many) = true)
    (hnf : ∀ f ∈ B, f.2.2.typeOf ≠ .float)
    (hNI : noValidInferred db) :
    bulk_add attrs rrmEmpty db B none (fuel + 1)
      = .ok (db.nextTx,
          (insertRows (db.newTx).2 db.nextTx false (dedupFacts B)).1) := by
  have hrp : removePreviousValues attrs rrmEmpty (db.newTx).2 db.nextTx
      (dedupFacts B) (fuel + 1) = .ok (db.newTx).2 :=
    removePreviousValues_many _ _ _ _ _ _
      (fun f hf => hmany f ((dedupFacts_mem B f).mp hf))
  have hloop := bulkAddLoop_rrmEmpty db.nextTx fuel (db.newTx).2 B hnf
  have hNIins : noValidInferred
      ((insertRows (db.newTx).2 db.nextTx false (dedupFacts B)).1) :=
    noValidInferred_insert _ _ _ (noValidInferred_newTx db hNI)
  unfold bulk_add bulkAddAux
  simp only [show (db.newTx).1 = db.nextTx from rfl, hrp, hloop,
    garbageCollect_id _ _ hNIins]

/-- C2 as amended: under the empty rule set, inserting cardinality-many,
non-float facts in any batch decomposition leaves valid-now exactly the
initial valid facts together with every inserted fact; hence the closure
is independent of the insertion order and split, and equals the least
set containing the assertions (the fixed point of the empty rule set). -/
theorem C2_closure_deterministic (attrs : AttrMap) (db : DB)
    (batches : List (List Fact)) (fuel : Nat)
    (hmany : ∀ f ∈ batches.flatten,
      (attrs f.2.1).any (fun a => a.cardinality == Card.many) = true)
    (hnf : ∀ f ∈ batches.flatten, f.2.2.typeOf ≠ .float)
    (hNI : noValidInferred db) :
    ∃ db2, bulkAddBatches attrs rrmEmpty (fuel + 1) db batches = .ok db2
      ∧ (∀ f : Fact,
          memVN db2 f = true ↔ (memVN db f = true ∨ f ∈ batches.flatten))
      ∧ noValidInferred db2 := by
  induction batches generalizing db with
  | nil => exact ⟨db, rfl, by simp, hNI⟩
  | cons b bs ih =>
      have hb1 := bulk_add_rrmEmpty attrs db b fuel
        (fun f hf => hmany f (by simp [hf]))
        (fun f hf => hnf f (by simp [hf])) hNI
      have hNI1 : noValidInferred
          ((insertRows (db.newTx).2 db.nextTx false (dedupFacts b)).1) :=
        noValidInferred_insert _ _ _ (noValidInferred_newTx db hNI)
      obtain ⟨db2, h2, h3, h4⟩ := ih _
        (fun f hf => hmany f (by simp [hf]))
        (fun f hf => hnf f (by simp [hf])) hNI1
      refine ⟨db2, ?_, ?_, h4⟩
      · show bulkAddBatches attrs rrmEmpty (fuel + 1) db (b :: bs) = .ok db2
        simp only [bulkAddBatches, hb1]
        exact h2
      · intro f
        rw [h3 f]
        rw [show memVN ((insertRows (db.newTx).2 db.nextTx false
            (dedupFacts b)).1) f = true ↔
            (memVN db f = true ∨ f ∈ dedupFacts b) from
          memVN_insert (db.newTx).2 db.nextTx false (dedupFacts b) f]
        rw [dedupFacts_mem]
        simp only [List.flatten_cons, List.mem_append]
        tauto

/-- Witness for C2: splitting two cardinality-many facts into two
transactions, both end up valid-now. -/
theorem C2_witness :
    ∃ db2, bulkAddBatches attrs0 rrmEmpty 1 dbEmpty
        [[("e", "rel", .i 1)], [("e", "rel", .i 2)]] = .ok db2
      ∧ memVN db2 ("e", "rel", .i 1) = true
      ∧ memVN db2 ("e", "rel", .i 2) = true := by
  obtain ⟨db2, h1, h2, _⟩ := C2_closure_deterministic attrs0 dbEmpty
    [[("e", "rel", .i 1)], [("e", "rel", .i 2)]] 0
    (by decide) (by decide) (by intro r hr _; simp [dbEmpty] at hr)
  refine ⟨db2, h1, ?_, ?_⟩
  · exact (h2 _).mpr (Or.inr (by simp))
  · exact (h2 _).mpr (Or.inr (by simp))

theorem rowReadable_iff (r : FactRow) :
    rowReadable r = true ↔ ∃ f, r.asFact = .ok f := by
  unfold rowReadable FactRow.asFact FactRow.value
  cases hs : r.value_str with
  | some s => simp
  | none =>
      cases hi : r.value_int with
      | some n => simp
      | none => simp

theorem mkRow_readable (tx : Nat) (b : Bool) (id : Nat) (g : Fact)
    (h : g.2.2.typeOf ≠ .float) : rowReadable (mkRow tx b id g) = true := by
  obtain ⟨ge, ga, gv⟩ := g
  cases gv with
  | s v => rfl
  | i v => rfl
  | f v => exact absurd rfl h

theorem any_false_mem {α : Type} (l : List α) (p : α → Bool)
    (h : l.any p = false) : ∀ x ∈ l, p x = false := by
  intro x hx
  cases hpx : p x with
  | false => rfl
  | true =>
      have h2 := List.any_eq_true.mpr ⟨x, hx, hpx⟩
      rw [h2] at h
      exact absurd h (by simp)

theorem collect_ok (l : List FactRow)
    (hninf : ∀ r ∈ l, r.is_inferred = false)
    (hread : ∀ r ∈ l, rowReadable r = true) :
    ∃ fs, collectBaseFacts l = .ok fs := by
  induction l with
  | nil => exact ⟨[], rfl⟩
  | cons r l ih =>
      obtain ⟨f, hf⟩ := (rowReadable_iff r).mp (hread r (by simp))
      obtain ⟨fs, hfs⟩ := ih (fun x hx => hninf x (by simp [hx]))
        (fun x hx => hread x (by simp [hx]))
      refine ⟨if f ∈ fs then fs else f :: fs, ?_⟩
      simp [collectBaseFacts, hninf r (by simp), hf, hfs]

theorem collect_error_inferred (l : List FactRow)
    (hread : ∀ r ∈ l, rowReadable r = true)
    (hinf : ∃ r ∈ l, r.is_inferred = true) :
    collectBaseFacts l = .error "You cannot delete inferred facts" := by
  induction l with
  | nil => simp at hinf
  | cons r l ih =>
      by_cases hri : r.is_inferred = true
      · simp [collectBaseFacts, hri]
      · have hrif : r.is_inferred = false := by
          cases h : r.is_inferred with
          | true => exact absurd h hri
          | false => rfl
        obtain ⟨f, hf⟩ := (rowReadable_iff r).mp (hread r (by simp))
        obtain ⟨r2, hr2, hr2i⟩ := hinf
        rcases List.mem_cons.mp hr2 with rfl | hr2l
        · exact absurd hr2i hri
        · have hih := ih (fun x hx => hread x (by simp [hx])) ⟨r2, hr2l, hr2i⟩
          simp [collectBaseFacts, hrif, hf, hih]

theorem buildSolQ_rrmEmpty (db : DB) (fuel : Nat) (fs : List Fact)
    (q : Option (SolutionRow → Bool)) :
    buildSolQ (rrmEmpty db) (fuel + 1) fs q = .ok q := by
  cases fs with
  | nil => exact buildSolQ_empty _ _ _
  | cons f fs =>
      show buildSolQ (rrmEmpty db) (fuel + 1) (f :: fs) q = .ok q
      simp only [buildSolQ]
      rw [show rrmEmpty db (f :: fs) = [] from rfl]
      simp only [List.foldl_nil]
      exact buildSolQ_empty _ _ _

theorem bulkRemoveAux_error (rrm : RRM) (db : DB) (tx : Nat)
    (q : Option (FactRow → Bool)) (fuel : Nat) (e : String) (db2 : DB)
    (h : bulkRemoveAux rrm db tx q fuel = .error (e, db2)) : db2 = db := by
  simp only [bulkRemoveAux] at h
  cases hc : collectBaseFacts (qFilter q (asOfNow db.facts)) with
  | error e1 =>
      rw [hc] at h
      simp only [] at h
      injection h with h2
      injection h2 with ha hb
      exact hb.symm
  | ok fs =>
      rw [hc] at h
      simp only [] at h
      cases hb2 : buildSolQ (rrm db) fuel fs none with
      | error e1 =>
          rw [hb2] at h
          simp only [] at h
          injection h with h2
          injection h2 with ha hb
          exact hb.symm
      | ok sq =>
          rw [hb2] at h
          simp at h

theorem bulkRemoveAux_rrmEmpty (db : DB) (tx : Nat)
    (q : Option (FactRow → Bool)) (fuel : Nat)
    (hninf : ∀ r ∈ qFilter q (asOfNow db.facts), r.is_inferred = false)
    (hread : ∀ r ∈ qFilter q (asOfNow db.facts), rowReadable r = true) :
    bulkRemoveAux rrmEmpty db tx q (fuel + 1)
      = .ok (garbageCollect
          { db with
            sols := ([] : List SolutionRow),
            facts := db.facts.map (fun r =>
              if r.removed.isNone && qHolds q r
              then { r with removed := some tx } else r) } tx) := by
  obtain ⟨fs, hfs⟩ := collect_ok _ hninf hread
  simp only [bulkRemoveAux]
  rw [hfs]
  simp only []
  rw [buildSolQ_rrmEmpty db fuel fs none]

theorem asOfNow_cons (r : FactRow) (l : List FactRow) :
    asOfNow (r :: l) = if r.removed.isNone then r :: asOfNow l else asOfNow l := by
  simp [asOfNow, List.filter_cons]

theorem asOfNow_map_mark (l : List FactRow) (p : FactRow → Bool) (tx : Nat) :
    asOfNow (l.map (fun r =>
        if r.removed.isNone && p r then { r with removed := some tx } else r))
      = (asOfNow l).filter (fun r => !p r) := by
  induction l with
  | nil => rfl
  | cons r l ih =>
      simp only [List.map_cons]
      rw [asOfNow_cons, asOfNow_cons]
      by_cases hv : r.removed.isNone = true
      · by_cases hp : p r = true
        · have hmark : (if (r.removed.isNone && p r) = true
              then { r with removed := some tx } else r)
              = { r with removed := some tx } := if_pos (by simp [hv, hp])
          rw [hmark, if_neg (by simp), if_pos hv,
            List.filter_cons, if_neg (by simp [hp]), ih]
        · have hp2 : p r = false := by
            cases h : p r with
            | true => exact absurd h hp
            | false => rfl
          have hmark : (if (r.removed.isNone && p r) = true
              then { r with removed := some tx } else r) = r := if_neg (by simp [hp2])
          rw [hmark, if_pos hv, if_pos hv,
            List.filter_cons, if_pos (by simp [hp2]), ih]
      · have hv2 : r.removed.isNone = false := by
          cases h : r.removed.isNone with
          | true => exact absurd h hv
          | false => rfl
        have hmark : (if (r.removed.isNone && p r) = true
            then { r with removed := some tx } else r) = r := if_neg (by simp [hv2])
        rw [hmark, if_neg (by simp [hv2]), if_neg (by simp [hv2]), ih]

theorem noValidInferred_mark (l : List FactRow) (p : FactRow → Bool) (tx : Nat)
    (h : ∀ r ∈ l, r.removed = none → r.is_inferred = false) :
    ∀ r2 ∈ l.map (fun r =>
        if r.removed.isNone && p r then { r with removed := some tx } else r),
      r2.removed = none → r2.is_inferred = false := by
  intro r2 hr2 hrem
  obtain ⟨r, hr, rfl⟩ := List.mem_map.mp hr2
  by_cases hc : (r.removed.isNone && p r) = true
  · rw [if_pos hc] at hrem
    simp at hrem
  · rw [if_neg hc] at hrem ⊢
    exact h r hr hrem

theorem filter_false_nil {α : Type} (l : List α) (p : α → Bool)
    (h : ∀ x ∈ l, p x = false) : l.filter p = [] := by
  induction l with
  | nil => rfl
  | cons a l ih =>
      simp [List.filter_cons, h a (by simp),
        ih (fun x hx => h x (by simp [hx]))]

/-- C1: asserting a batch of facts and then retracting the same batch
restores the prior valid fact set.  This holds under the amended
provisos: the configured rule list is empty, every attribute of the
batch has cardinality many, no value is a float, none of the facts is
already stored, and no justification rows exist beforehand (the
unconditional reading of the claim is refuted by C1_counterexample). -/
theorem C1_retraction_undoes_assertion (attrs : AttrMap) (db : DB)
    (B : List Fact) (fuel1 fuel2 : Nat)
    (hmany : ∀ f ∈ B, (attrs f.2.1).any (fun a => a.cardinality == Card.many) = true)
    (hnf : ∀ f ∈ B, f.2.2.typeOf ≠ .float)
    (hNI : noValidInferred db)
    (hNV : ∀ f ∈ B, memVN db f = false)
    (hsols : db.sols = []) :
    ∃ tx1 db1 r db2,
      bulk_add attrs rrmEmpty db B none (fuel1 + 1) = .ok (tx1, db1)
        ∧ bulk_remove rrmEmpty db1 B (fuel2 + 1) = .ok (r, db2)
        ∧ asOfNow db2.facts = asOfNow db.facts
        ∧ db2.sols = [] := by
  have hadd := bulk_add_rrmEmpty attrs db B fuel1 hmany hnf hNI
  cases B with
  | nil =>
      refine ⟨db.nextTx, _, none, _, hadd, rfl, ?_, ?_⟩
      · show asOfNow (db.facts ++ []) = asOfNow db.facts
        rw [List.append_nil]
      · exact hsols
  | cons f0 fs0 =>
      have hq_old : ∀ r ∈ asOfNow db.facts,
          ((f0 :: fs0).any (fun f => factRowMatches r f)) = false := by
        intro r hr
        apply list_any_false
        intro f hf
        exact any_false_mem _ _ (hNV f hf) r hr
      have hrows_q : ∀ r ∈ mkRows db.nextTx false db.nextFactId (dedupFacts (f0 :: fs0)),
          ((f0 :: fs0).any (fun f => factRowMatches r f)) = true := by
        intro r hr
        obtain ⟨h1, h2, g, hg, i, rfl⟩ :=
          mkRows_props db.nextTx false (dedupFacts (f0 :: fs0)) db.nextFactId r hr
        exact List.any_eq_true.mpr
          ⟨g, (dedupFacts_mem _ g).mp hg, (factRowMatches_mkRow _ _ _ g g).mpr rfl⟩
      have hmatched : qFilter (some (fun r => (f0 :: fs0).any (fun f => factRowMatches r f)))
          (asOfNow (((insertRows (db.newTx).2 db.nextTx false (dedupFacts (f0 :: fs0))).1.newTx).2).facts) = mkRows db.nextTx false db.nextFactId (dedupFacts (f0 :: fs0)) := by
        show qFilter (some (fun r => (f0 :: fs0).any (fun f => factRowMatches r f)))
          (asOfNow (db.facts ++ mkRows db.nextTx false db.nextFactId (dedupFacts (f0 :: fs0)))) = mkRows db.nextTx false db.nextFactId (dedupFacts (f0 :: fs0))
        have hqh_old : ∀ r ∈ asOfNow db.facts,
            qHolds (some (fun r => (f0 :: fs0).any (fun f => factRowMatches r f))) r = false := hq_old
        have hqh_rows : ∀ r ∈ mkRows db.nextTx false db.nextFactId (dedupFacts (f0 :: fs0)),
            qHolds (some (fun r => (f0 :: fs0).any (fun f => factRowMatches r f))) r = true := hrows_q
        unfold qFilter
        rw [asOfNow_append, mkRows_asOfNow, List.filter_append]
        rw [filter_false_nil _ _ hqh_old,
          List.filter_eq_self.mpr hqh_rows, List.nil_append]
      have hdb1NI : noValidInferred (insertRows (db.newTx).2 db.nextTx false (dedupFacts (f0 :: fs0))).1 :=
        noValidInferred_insert _ _ _ (noValidInferred_newTx db hNI)
      have hninf2 : ∀ r ∈ qFilter (some (fun r => (f0 :: fs0).any (fun f => factRowMatches r f)))
          (asOfNow (((insertRows (db.newTx).2 db.nextTx false (dedupFacts (f0 :: fs0))).1.newTx).2).facts), r.is_inferred = false := by
        intro r hr
        rw [hmatched] at hr
        exact (mkRows_props db.nextTx false (dedupFacts (f0 :: fs0))
          db.nextFactId r hr).2.1
      have hread2 : ∀ r ∈ qFilter (some (fun r => (f0 :: fs0).any (fun f => factRowMatches r f)))
          (asOfNow (((insertRows (db.newTx).2 db.nextTx false (dedupFacts (f0 :: fs0))).1.newTx).2).facts), rowReadable r = true := by
        intro r hr
        rw [hmatched] at hr
        obtain ⟨h1, h2, g, hg, i, rfl⟩ :=
          mkRows_props db.nextTx false (dedupFacts (f0 :: fs0)) db.nextFactId r hr
        exact mkRow_readable _ _ _ g (hnf g ((dedupFacts_mem _ g).mp hg))
      have haux := bulkRemoveAux_rrmEmpty ((insertRows (db.newTx).2 db.nextTx false (dedupFacts (f0 :: fs0))).1.newTx).2 ((insertRows (db.newTx).2 db.nextTx false (dedupFacts (f0 :: fs0))).1.newTx).1
        (some (fun r => (f0 :: fs0).any (fun f => factRowMatches r f))) fuel2 hninf2 hread2
      have hNVm : noValidInferred
          { ((insertRows (db.newTx).2 db.nextTx false (dedupFacts (f0 :: fs0))).1.newTx).2 with
            sols := ([] : List SolutionRow),
            facts := (((insertRows (db.newTx).2 db.nextTx false (dedupFacts (f0 :: fs0))).1.newTx).2).facts.map (fun r =>
              if r.removed.isNone && qHolds (some (fun r => (f0 :: fs0).any (fun f => factRowMatches r f))) r
              then { r with removed := some ((insertRows (db.newTx).2 db.nextTx false (dedupFacts (f0 :: fs0))).1.newTx).1 } else r) } :=
        noValidInferred_mark _ _ _ hdb1NI
      refine ⟨db.nextTx, (insertRows (db.newTx).2 db.nextTx false (dedupFacts (f0 :: fs0))).1, some ((insertRows (db.newTx).2 db.nextTx false (dedupFacts (f0 :: fs0))).1.newTx).1,
        { ((insertRows (db.newTx).2 db.nextTx false (dedupFacts (f0 :: fs0))).1.newTx).2 with
          sols := ([] : List SolutionRow),
          facts := (((insertRows (db.newTx).2 db.nextTx false (dedupFacts (f0 :: fs0))).1.newTx).2).facts.map (fun r =>
            if r.removed.isNone && qHolds (some (fun r => (f0 :: fs0).any (fun f => factRowMatches r f))) r
            then { r with removed := some ((insertRows (db.newTx).2 db.nextTx false (dedupFacts (f0 :: fs0))).1.newTx).1 } else r) },
        hadd, ?_, ?_, rfl⟩
      · simp only [bulk_remove]
        rw [if_neg (by simp)]
        rw [haux]
        rw [garbageCollect_id _ _ hNVm]
      · have hA2 : ∀ r ∈ asOfNow db.facts,
            (!(qHolds (some (fun r => (f0 :: fs0).any (fun f => factRowMatches r f))) r)) = true := by
          intro r hr
          simp [qHolds, hq_old r hr]
        have hB2 : ∀ r ∈ mkRows db.nextTx false db.nextFactId (dedupFacts (f0 :: fs0)),
            (!(qHolds (some (fun r => (f0 :: fs0).any (fun f => factRowMatches r f))) r)) = false := by
          intro r hr
          simp [qHolds, hrows_q r hr]
        show asOfNow ((db.facts ++ mkRows db.nextTx false db.nextFactId (dedupFacts (f0 :: fs0))).map (fun r =>
            if r.removed.isNone && qHolds (some (fun r => (f0 :: fs0).any (fun f => factRowMatches r f))) r
            then { r with removed := some ((insertRows (db.newTx).2 db.nextTx false (dedupFacts (f0 :: fs0))).1.newTx).1 } else r))
          = asOfNow db.facts
        rw [asOfNow_map_mark, asOfNow_append, mkRows_asOfNow, List.filter_append]
        rw [List.filter_eq_self.mpr hA2, filter_false_nil _ _ hB2, List.append_nil]

theorem C1_witness :
    ∃ tx1 db1 r db2,
      bulk_add attrs0 rrmEmpty dbEmpty [("e", "rel", Ordinal.i 5)] none (0 + 1)
          = .ok (tx1, db1)
        ∧ bulk_remove rrmEmpty db1 [("e", "rel", Ordinal.i 5)] (0 + 1)
          = .ok (r, db2)
        ∧ asOfNow db2.facts = asOfNow dbEmpty.facts
        ∧ db2.sols = [] :=
  C1_retraction_undoes_assertion attrs0 dbEmpty [("e", "rel", Ordinal.i 5)] 0 0
    (by decide) (by decide) (by intro r hr hrm; simp [dbEmpty] at hr) (by decide) rfl

theorem bool_not_true {b : Bool} (h : (!b) = true) : b = false := by
  cases b with
  | false => rfl
  | true => exact absurd h (by simp)

theorem filterCardOne_ok (attrs : AttrMap) (l : List Fact)
    (h : ∀ f ∈ l, (attrs f.2.1).isSome = true) :
    ∃ co, filterCardOne attrs l = .ok co
      ∧ ∀ x, x ∈ co ↔ (x ∈ l
          ∧ (attrs x.2.1).any (fun a => a.cardinality == Card.one) = true) := by
  induction l with
  | nil => exact ⟨[], rfl, by simp⟩
  | cons ff rest ih =>
      obtain ⟨co, hco, hmem⟩ := ih (fun f hf => h f (by simp [hf]))
      cases hA : attrs ff.2.1 with
      | none =>
          exfalso
          have h2 := h ff (by simp)
          rw [hA] at h2
          simp at h2
      | some a =>
          by_cases hone : a.cardinality = .one
          · by_cases hffin : ff ∈ co
            · refine ⟨co, by simp [filterCardOne, hA, hco, hone, hffin], ?_⟩
              intro x
              rw [hmem x]
              constructor
              · rintro ⟨hx, hc⟩
                exact ⟨List.mem_cons_of_mem _ hx, hc⟩
              · rintro ⟨hx, hc⟩
                rcases List.mem_cons.mp hx with rfl | hx2
                · exact (hmem x).mp hffin
                · exact ⟨hx2, hc⟩
            · refine ⟨ff :: co, by simp [filterCardOne, hA, hco, hone, hffin], ?_⟩
              intro x
              constructor
              · intro hx
                rcases List.mem_cons.mp hx with rfl | hx2
                · exact ⟨by simp, by simp [hA, hone]⟩
                · obtain ⟨hxr, hc⟩ := (hmem x).mp hx2
                  exact ⟨by simp [hxr], hc⟩
              · rintro ⟨hx, hc⟩
                rcases List.mem_cons.mp hx with rfl | hx2
                · exact List.mem_cons_self _ _
                · exact List.mem_cons_of_mem _ ((hmem x).mpr ⟨hx2, hc⟩)
          · refine ⟨co, by simp [filterCardOne, hA, hco, hone], ?_⟩
            intro x
            rw [hmem x]
            constructor
            · rintro ⟨hx, hc⟩
              exact ⟨List.mem_cons_of_mem _ hx, hc⟩
            · rintro ⟨hx, hc⟩
              rcases List.mem_cons.mp hx with rfl | hx2
              · exfalso
                rw [hA] at hc
                simp [hone] at hc
              · exact ⟨hx2, hc⟩

theorem removePreviousValues_ok (attrs : AttrMap) (db : DB) (tx : Nat)
    (fs : List Fact) (fuel : Nat)
    (hro : ∀ r ∈ asOfNow db.facts, rowReadable r = true)
    (hNI : noValidInferred db)
    (hattr : ∀ f ∈ fs, (attrs f.2.1).isSome = true) :
    ∃ db1 co, removePreviousValues attrs rrmEmpty db tx fs (fuel + 1) = .ok db1
      ∧ filterCardOne attrs fs = .ok co
      ∧ (∀ x, x ∈ co ↔ (x ∈ fs
          ∧ (attrs x.2.1).any (fun a => a.cardinality == Card.one) = true))
      ∧ (∀ r, r ∈ asOfNow db1.facts ↔ (r ∈ asOfNow db.facts
          ∧ (co.any (fun ff => r.entity == ff.1 && r.attr == ff.2.1)) = false))
      ∧ noValidInferred db1 := by
  obtain ⟨co, hcoeq, hcomem⟩ := filterCardOne_ok attrs fs hattr
  cases co with
  | nil =>
      refine ⟨db, [], ?_, hcoeq, hcomem, ?_, hNI⟩
      · simp only [removePreviousValues]
        rw [hcoeq]
        rfl
      · intro r
        simp
  | cons c cs =>
      have hninf2 : ∀ r ∈ qFilter
          (some (fun r => (c :: cs).any (fun ff => r.entity == ff.1 && r.attr == ff.2.1)))
          (asOfNow db.facts), r.is_inferred = false := by
        intro r hr
        have h1 := List.mem_filter.mp hr
        have h2 := List.mem_filter.mp h1.1
        exact hNI r h2.1 (Option.isNone_iff_eq_none.mp h2.2)
      have hread2 : ∀ r ∈ qFilter
          (some (fun r => (c :: cs).any (fun ff => r.entity == ff.1 && r.attr == ff.2.1)))
          (asOfNow db.facts), rowReadable r = true := by
        intro r hr
        exact hro r (List.mem_filter.mp hr).1
      have haux := bulkRemoveAux_rrmEmpty db tx
        (some (fun r => (c :: cs).any (fun ff => r.entity == ff.1 && r.attr == ff.2.1)))
        fuel hninf2 hread2
      have hNIdbR : noValidInferred
          { db with
            sols := ([] : List SolutionRow),
            facts := db.facts.map (fun r =>
              if r.removed.isNone && qHolds
                  (some (fun r2 => (c :: cs).any (fun ff => r2.entity == ff.1 && r2.attr == ff.2.1))) r
              then { r with removed := some tx } else r) } :=
        noValidInferred_mark _ _ _ hNI
      refine ⟨{ db with
          sols := ([] : List SolutionRow),
          facts := db.facts.map (fun r =>
            if r.removed.isNone && qHolds
                (some (fun r2 => (c :: cs).any (fun ff => r2.entity == ff.1 && r2.attr == ff.2.1))) r
            then { r with removed := some tx } else r) },
        c :: cs, ?_, hcoeq, hcomem, ?_, hNIdbR⟩
      · simp only [removePreviousValues]
        rw [hcoeq]
        simp only []
        rw [if_neg (by simp), haux, garbageCollect_id _ _ hNIdbR]
      · intro r
        show r ∈ asOfNow (db.facts.map (fun r =>
            if r.removed.isNone && qHolds
                (some (fun r2 => (c :: cs).any (fun ff => r2.entity == ff.1 && r2.attr == ff.2.1))) r
            then { r with removed := some tx } else r)) ↔ _
        rw [asOfNow_map_mark, List.mem_filter]
        constructor
        · rintro ⟨h1, h2⟩
          exact ⟨h1, bool_not_true h2⟩
        · rintro ⟨h1, h2⟩
          exact ⟨h1, by simp [qHolds, h2]⟩

/-- C3: under a schema declaring an attribute with cardinality one,
bulk_add keeps at most one valid value per entity and attribute.  This
holds under the amended provisos: an empty rule configuration, a store
of readable non-inferred rows, schema-covered non-float batch facts,
and at most one value per cardinality-one entity/attribute pair inside
the batch itself (a batch carrying two values commits both, refuted by
C3_counterexample). -/
theorem C3_cardinality_one_invariant (attrs : AttrMap) (db : DB)
    (B : List Fact) (fuel : Nat)
    (hco : cardOneOK attrs db)
    (hNI : noValidInferred db)
    (hro : ∀ r ∈ asOfNow db.facts, rowReadable r = true)
    (hattr : ∀ f ∈ B, (attrs f.2.1).isSome = true)
    (hnf : ∀ f ∈ B, f.2.2.typeOf ≠ .float)
    (hB1 : ∀ f1 ∈ B, ∀ f2 ∈ B,
      (attrs f1.2.1).any (fun a => a.cardinality == Card.one) = true →
      f1.1 = f2.1 → f1.2.1 = f2.2.1 → f1.2.2 = f2.2.2) :
    ∃ tx db2, bulk_add attrs rrmEmpty db B none (fuel + 1) = .ok (tx, db2)
      ∧ cardOneOK attrs db2 := by
  obtain ⟨db1, co, hrpv, hcoeq, hcomem, hmem1, hNI1⟩ :=
    removePreviousValues_ok attrs (db.newTx).2 (db.newTx).1 (dedupFacts B) fuel
      hro hNI (fun f hf => hattr f ((dedupFacts_mem B f).mp hf))
  have hloop := bulkAddLoop_rrmEmpty (db.newTx).1 fuel db1 B hnf
  have hNI2 : noValidInferred
      (insertRows db1 (db.newTx).1 false (dedupFacts B)).1 :=
    noValidInferred_insert _ _ _ hNI1
  refine ⟨(db.newTx).1, (insertRows db1 (db.newTx).1 false (dedupFacts B)).1,
    ?_, ?_⟩
  · unfold bulk_add bulkAddAux
    simp only [hrpv, hloop, garbageCollect_id _ _ hNI2]
  · have hsplit : ∀ r,
        r ∈ asOfNow ((insertRows db1 (db.newTx).1 false (dedupFacts B)).1).facts
          ↔ (r ∈ asOfNow db1.facts
              ∨ r ∈ mkRows (db.newTx).1 false db1.nextFactId (dedupFacts B)) := by
      intro r
      show r ∈ asOfNow (db1.facts
        ++ mkRows (db.newTx).1 false db1.nextFactId (dedupFacts B)) ↔ _
      rw [asOfNow_append, mkRows_asOfNow, List.mem_append]
    intro r1 hr1 r2 hr2 hc1 hent hatt
    rcases (hsplit r1).mp hr1 with hO1 | hN1
    · rcases (hsplit r2).mp hr2 with hO2 | hN2
      · exact hco r1 ((hmem1 r1).mp hO1).1 r2 ((hmem1 r2).mp hO2).1 hc1 hent hatt
      · exfalso
        obtain ⟨hrm, hinf, g, hg, i, rfl⟩ :=
          mkRows_props (db.newTx).1 false (dedupFacts B) db1.nextFactId r2 hN2
        have hga : (mkRow (db.newTx).1 false i g).attr = g.2.1 := rfl
        have hge : (mkRow (db.newTx).1 false i g).entity = g.1 := rfl
        rw [hatt, hga] at hc1
        have hgco : g ∈ co := (hcomem g).mpr ⟨hg, hc1⟩
        have hw : (co.any (fun ff => r1.entity == ff.1 && r1.attr == ff.2.1))
            = true :=
          List.any_eq_true.mpr ⟨g, hgco, by simp [hent, hatt, hge, hga]⟩
        have h1 := (hmem1 r1).mp hO1
        rw [h1.2] at hw
        exact absurd hw (by simp)
    · rcases (hsplit r2).mp hr2 with hO2 | hN2
      · exfalso
        obtain ⟨hrm, hinf, g, hg, i, rfl⟩ :=
          mkRows_props (db.newTx).1 false (dedupFacts B) db1.nextFactId r1 hN1
        have hga : (mkRow (db.newTx).1 false i g).attr = g.2.1 := rfl
        have hge : (mkRow (db.newTx).1 false i g).entity = g.1 := rfl
        rw [hga] at hc1
        have hgco : g ∈ co := (hcomem g).mpr ⟨hg, hc1⟩
        have hw : (co.any (fun ff => r2.entity == ff.1 && r2.attr == ff.2.1))
            = true :=
          List.any_eq_true.mpr ⟨g, hgco, by simp [hent.symm, hatt.symm, hge, hga]⟩
        have h2 := (hmem1 r2).mp hO2
        rw [h2.2] at hw
        exact absurd hw (by simp)
      · obtain ⟨hrm1, hinf1, g1, hg1, i1, rfl⟩ :=
          mkRows_props (db.newTx).1 false (dedupFacts B) db1.nextFactId r1 hN1
        obtain ⟨hrm2, hinf2, g2, hg2, i2, rfl⟩ :=
          mkRows_props (db.newTx).1 false (dedupFacts B) db1.nextFactId r2 hN2
        have he : g1.1 = g2.1 := hent
        have ha : g1.2.1 = g2.2.1 := hatt
        have hcard1 : (attrs g1.2.1).any (fun a => a.cardinality == Card.one)
            = true := hc1
        have hv := hB1 g1 ((dedupFacts_mem B g1).mp hg1)
          g2 ((dedupFacts_mem B g2).mp hg2) hcard1 he ha
        have hcols : mkColumns g1.2.2 = mkColumns g2.2.2 := by rw [hv]
        exact show ((mkColumns g1.2.2).1, (mkColumns g1.2.2).2.1,
            (mkColumns g1.2.2).2.2)
          = ((mkColumns g2.2.2).1, (mkColumns g2.2.2).2.1,
            (mkColumns g2.2.2).2.2) by rw [hcols]

theorem C3_witness :
    ∃ tx db2, bulk_add attrs0 rrmEmpty dbAge1 [("e", "age", Ordinal.i 7)] none
        (0 + 1) = .ok (tx, db2)
      ∧ cardOneOK attrs0 db2 :=
  C3_cardinality_one_invariant attrs0 dbAge1 [("e", "age", Ordinal.i 7)] 0
    (by intro r1 hr1 r2 hr2 hc he hat
        simp [dbAge1, asOfNow] at hr1 hr2
        rw [hr1, hr2])
    (by intro r hr hrm
        simp [dbAge1] at hr
        simp [hr])
    (by decide) (by decide) (by decide) (by decide)

theorem asOfNow_gc_subset (db : DB) (tx : Nat) :
    ∀ r ∈ asOfNow (garbageCollect db tx).facts, r ∈ asOfNow db.facts := by
  intro r hr
  have h1 := List.mem_filter.mp hr
  obtain ⟨r0, hr0, heq⟩ := List.mem_map.mp h1.1
  by_cases hc : (r0.removed.isNone && r0.is_inferred
      && (db.sols.countP (fun srow => srow.inferred_fact_id == r0.id)) == 0) = true
  · rw [if_pos hc] at heq
    have h2 := h1.2
    rw [← heq] at h2
    simp at h2
  · rw [if_neg hc] at heq
    subst heq
    exact List.mem_filter.mpr ⟨hr0, h1.2⟩

/-- C5: retracting base facts, amended two-branch behaviour: with every
matched stored row carrying a readable value, (a) if at least one
matched valid row is inferred, bulk_remove raises the retraction guard
error and no row or justification row is touched, and (b) if no matched
valid row is inferred, the call (under the empty, hence terminating,
rule configuration) succeeds and cascades the retraction, leaving no
fact of the batch valid-now.  The spec reading that only the
inferred-ness of the batch matters is refuted by C5_counterexample,
where an unreadable float value raises a different error first. -/
theorem C5_bulk_remove_guard (rrm : RRM) (db : DB) (B : List Fact)
    (fuel : Nat) (hne : B ≠ [])
    (hread : ∀ r ∈ qFilter (some (fun r => B.any (fun f => factRowMatches r f)))
        (asOfNow db.facts), rowReadable r = true) :
    ((∃ r ∈ qFilter (some (fun r => B.any (fun f => factRowMatches r f)))
        (asOfNow db.facts), r.is_inferred = true) →
      ∃ db2, bulk_remove rrm db B fuel
          = .error ("You cannot delete inferred facts", db2)
        ∧ db2.facts = db.facts ∧ db2.sols = db.sols)
    ∧ ((∀ r ∈ qFilter (some (fun r => B.any (fun f => factRowMatches r f)))
        (asOfNow db.facts), r.is_inferred = false) →
      ∃ tx db2, bulk_remove rrmEmpty db B (fuel + 1) = .ok (some tx, db2)
        ∧ ∀ f ∈ B, memVN db2 f = false) := by
  cases B with
  | nil => exact absurd rfl hne
  | cons f0 fs0 =>
      constructor
      · intro hinf
        refine ⟨(db.newTx).2, ?_, rfl, rfl⟩
        have herr : bulkRemoveAux rrm (db.newTx).2 (db.newTx).1
            (some (fun r => (f0 :: fs0).any (fun f => factRowMatches r f))) fuel
            = .error ("You cannot delete inferred facts", (db.newTx).2) := by
          simp only [bulkRemoveAux, show ((db.newTx).2).facts = db.facts from rfl]
          rw [collect_error_inferred _ hread hinf]
        simp only [bulk_remove]
        rw [if_neg (by simp), herr]
      · intro hninf
        have haux := bulkRemoveAux_rrmEmpty (db.newTx).2 (db.newTx).1
          (some (fun r => (f0 :: fs0).any (fun f => factRowMatches r f))) fuel
          hninf hread
        refine ⟨(db.newTx).1,
          garbageCollect
            { (db.newTx).2 with
              sols := ([] : List SolutionRow),
              facts := ((db.newTx).2).facts.map (fun r =>
                if r.removed.isNone && qHolds
                    (some (fun r2 => (f0 :: fs0).any (fun f => factRowMatches r2 f))) r
                then { r with removed := some (db.newTx).1 } else r) }
            (db.newTx).1, ?_, ?_⟩
        · simp only [bulk_remove]
          rw [if_neg (by simp), haux]
        · intro f hf
          apply list_any_false
          intro r hr
          have h2 := asOfNow_gc_subset _ _ r hr
          have h2b : r ∈ asOfNow (((db.newTx).2).facts.map (fun r =>
              if r.removed.isNone && qHolds
                  (some (fun r2 => (f0 :: fs0).any (fun f => factRowMatches r2 f))) r
              then { r with removed := some (db.newTx).1 } else r)) := h2
          rw [asOfNow_map_mark] at h2b
          have h3 := List.mem_filter.mp h2b
          exact any_false_mem _ _ (bool_not_true h3.2) f hf

theorem C5_witness :
    ((∃ r ∈ qFilter (some (fun r =>
          [("e", "age", Ordinal.i 1)].any (fun f => factRowMatches r f)))
        (asOfNow (⟨[⟨0, "e", "age", none, some 1, none, true, 0, none⟩], [], [0], 1, 1⟩ : DB).facts), r.is_inferred = true) →
      ∃ db2, bulk_remove rrmEmpty (⟨[⟨0, "e", "age", none, some 1, none, true, 0, none⟩], [], [0], 1, 1⟩ : DB)
          [("e", "age", Ordinal.i 1)] 1
          = .error ("You cannot delete inferred facts", db2)
        ∧ db2.facts = (⟨[⟨0, "e", "age", none, some 1, none, true, 0, none⟩], [], [0], 1, 1⟩ : DB).facts
        ∧ db2.sols = (⟨[⟨0, "e", "age", none, some 1, none, true, 0, none⟩], [], [0], 1, 1⟩ : DB).sols)
    ∧ ((∀ r ∈ qFilter (some (fun r =>
          [("e", "age", Ordinal.i 1)].any (fun f => factRowMatches r f)))
        (asOfNow (⟨[⟨0, "e", "age", none, some 1, none, true, 0, none⟩], [], [0], 1, 1⟩ : DB).facts), r.is_inferred = false) →
      ∃ tx db2, bulk_remove rrmEmpty (⟨[⟨0, "e", "age", none, some 1, none, true, 0, none⟩], [], [0], 1, 1⟩ : DB)
          [("e", "age", Ordinal.i 1)] (1 + 1) = .ok (some tx, db2)
        ∧ ∀ f ∈ [("e", "age", Ordinal.i 1)], memVN db2 f = false) :=
  C5_bulk_remove_guard rrmEmpty (⟨[⟨0, "e", "age", none, some 1, none, true, 0, none⟩], [], [0], 1, 1⟩ : DB)
    [("e", "age", Ordinal.i 1)] 1 (by decide) (by decide)

end Triplets
